import Mathlib

/-!
# KisFlow: the pipeline chain, parameter resolution and the run loop

A shallow embedding of `flow/kis_flow.go`, `function/kis_function_v.go`,
`function/kis_function_l.go` and `kis/router.go`.

Modelling conventions

* Go pointers to stage objects are addresses (indices) into `KisFlow.heap`, the
  store of the stage objects the pipeline owns; a nil pointer or nil interface
  is `none`.
* Go maps are association lists with unique keys (`AList`); only `lookup`,
  `insert` and membership of keys are used, so the order of entries carries no
  meaning.
* A Go function that returns `error` and mutates its receiver returns the new
  state paired with `Option KisError` (`none` is the nil error).
* A run-time panic of the Go code (a method call through a nil or unallocated
  stage reference) is the outer `none` of an `Option` result.
* The locks `flock` and `fplock`, and the output of `fmt.Printf` and of the
  logger, are not modelled: every operation is taken as running alone.
* Types declared outside the embedded files are parameters: `PV` is the type of
  a parameter value (`config.FParam` maps strings to `PV`), `Row` is the type
  of a data row (`common.KisRow`), `Ctx` is `context.Context`.
-/

namespace Kis

/-! ## Data model -/

/-- Go `error` values. `msg` is an error carrying a text (`errors.New`), and
`notRegistered` is the condition raised by the dispatch registry for a logical
name that has no callback. -/
inductive KisError where
  | msg (text : String)
  | notRegistered (fnName : String)
  deriving DecidableEq, Repr

/-- Address of a stage object in `KisFlow.heap`. -/
abbrev Addr := Nat

/-- Modelled from the spec: the type `config.FParam` is declared outside src; it
is the "mapping from parameter key to value" of a stage. -/
abbrev FParam (PV : Type) := AList (fun _ : String => PV)

/-- Modelled from the spec: the mode of a stage configuration is declared
outside src. It selects the concrete stage type, of which src holds
`KisFunctionV` and `KisFunctionL`; `unsupported` stands for every mode value
for which the stage factory returns no stage. -/
inductive KisMode where
  | V
  | L
  | unsupported
  deriving DecidableEq, Repr

/-- Modelled from the spec: the type `config.KisFuncConfig` is declared outside
src. It holds what the engine reads of a stage policy: the logical name `FName`
used for dispatch, the mode read by the stage factory, and the default
parameters, which the Go code reaches as `Option.Params`. -/
structure KisFuncConfig (PV : Type) where
  FName : String
  FMode : KisMode
  Params : FParam PV

/-- Modelled from the spec: the type `config.KisFlowConfig` is declared outside
src. It holds what the engine reads of a pipeline policy: the name and the
status (enabled or disabled). -/
structure KisFlowConfig where
  FlowName : String
  Status : Int
  deriving DecidableEq, Repr

/-- The concrete type of a stage object: `*KisFunctionV` or `*KisFunctionL`. -/
inductive Variant where
  | V
  | L
  deriving DecidableEq, Repr

/-- A stage object: a `KisFunctionV` or a `KisFunctionL`, each of which embeds
`BaseFunction`. Modelled from the spec: `BaseFunction` is declared outside src;
a stage "holds its own configuration and identity" and "exposes next/previous
links". -/
structure KisFunction (PV : Type) where
  variant : Variant
  Id : String
  Config : KisFuncConfig PV
  N : Option Addr
  P : Option Addr

/-- The Go struct `KisFlow`, with the store of its stage objects (`heap`). -/
structure KisFlow (PV Row : Type) where
  Id : String
  Name : String
  Conf : KisFlowConfig
  Funcs : AList (fun _ : String => Addr)
  FlowHead : Option Addr
  FlowTail : Option Addr
  ThisFunction : Option Addr
  ThisFunctionId : String
  PrevFunctionId : String
  funcParams : AList (fun _ : String => FParam PV)
  buffer : List Row
  data : AList (fun _ : String => List Row)
  inPut : List Row
  heap : List (KisFunction PV)

variable {PV Row Ctx : Type}

/-! ## Stage accessors (`BaseFunction`) -/

/-- Modelled from the spec: `BaseFunction.GetId` is not under src; a stage
"holds its own configuration and identity". `none` when `f` is not allocated. -/
def GetId (flow : KisFlow PV Row) (f : Addr) : Option String :=
  (flow.heap[f]?).map (fun o => o.Id)

/-- Modelled from the spec: `BaseFunction.GetConfig` is not under src; it
returns the stage's configuration. -/
def GetConfig (flow : KisFlow PV Row) (f : Addr) : Option (KisFuncConfig PV) :=
  (flow.heap[f]?).map (fun o => o.Config)

/-- Modelled from the spec: `BaseFunction.Next` is not under src; a stage
"exposes next/previous links". The inner option is the link. -/
def Next (flow : KisFlow PV Row) (f : Addr) : Option (Option Addr) :=
  (flow.heap[f]?).map (fun o => o.N)

/-- Modelled from the spec: `BaseFunction.Prev` is not under src. -/
def Prev (flow : KisFlow PV Row) (f : Addr) : Option (Option Addr) :=
  (flow.heap[f]?).map (fun o => o.P)

/-- Modelled from the spec: `BaseFunction.SetN` is not under src; it stores the
next link of stage `f`. -/
def SetN (flow : KisFlow PV Row) (f : Addr) (v : Option Addr) : Option (KisFlow PV Row) :=
  match flow.heap[f]? with
  | none => none
  | some o => some { flow with heap := flow.heap.set f { o with N := v } }

/-- Modelled from the spec: `BaseFunction.SetP` is not under src; it stores the
previous link of stage `f`. -/
def SetP (flow : KisFlow PV Row) (f : Addr) (v : Option Addr) : Option (KisFlow PV Row) :=
  match flow.heap[f]? with
  | none => none
  | some o => some { flow with heap := flow.heap.set f { o with P := v } }

/-! ## Creation and linking -/

/-- The function `NewKisFlow(conf)`. `flowId` is the value returned by the identifier
supplier `id.KisID(common.KisIdTypeFlow)`. -/
def NewKisFlow (flowId : String) (conf : KisFlowConfig) : KisFlow PV Row :=
  { Id := flowId
    Name := conf.FlowName
    Conf := conf
    Funcs := ∅
    FlowHead := none
    FlowTail := none
    ThisFunction := none
    ThisFunctionId := ""
    PrevFunctionId := ""
    funcParams := ∅
    buffer := []
    data := ∅
    inPut := []
    heap := [] }

/-- Modelled from the spec: `function.NewKisFunction` is not under src. It
"constructs a new Stage bound to this pipeline from stageConfig"; the result is
absent when the configuration selects no stage variant. `newId` is the identity
issued for the new stage. -/
def NewKisFunction (newId : String) (fConf : KisFuncConfig PV) : Option (KisFunction PV) :=
  match fConf.FMode with
  | KisMode.V => some { variant := Variant.V, Id := newId, Config := fConf, N := none, P := none }
  | KisMode.L => some { variant := Variant.L, Id := newId, Config := fConf, N := none, P := none }
  | KisMode.unsupported => none

/-- Allocation of a new stage object: it gets the first unused address. -/
def alloc (flow : KisFlow PV Row) (o : KisFunction PV) : KisFlow PV Row × Addr :=
  ({ flow with heap := flow.heap ++ [o] }, flow.heap.length)

/-- The two `for key, value := range m { params[key] = value }` loops of
`appendFunc`: every entry of `m` is written into `params`. -/
def copyInto (m : FParam PV) (params : FParam PV) : FParam PV :=
  m.entries.foldl (fun acc kv => acc.insert kv.1 kv.2) params

/-- The method `KisFlow.appendFunc(function, fParam)`: the chain insertion, the
entry of `Funcs`, and the resolution of the parameter table into `funcParams`. -/
def appendFunc (flow : KisFlow PV Row) (function : Option Addr) (fParam : FParam PV) :
    Option (KisFlow PV Row × Option KisError) :=
  match function with
  | none => some (flow, some (KisError.msg "AppendFunc append nil to List"))
  | some fn => do
    let flow ←
      (match flow.FlowHead with
       | none => do
         let flow := { flow with FlowHead := some fn, FlowTail := some fn }
         let flow ← SetN flow fn none
         SetP flow fn none
       | some _ => do
         let flow ← SetP flow fn flow.FlowTail
         let flow ← SetN flow fn none
         let tail ← flow.FlowTail
         let flow ← SetN flow tail (some fn)
         pure { flow with FlowTail := some fn })
    let fid ← GetId flow fn
    let flow := { flow with Funcs := flow.Funcs.insert fid fn }
    let conf ← GetConfig flow fn
    let params : FParam PV := ∅
    let params := copyInto conf.Params params
    let params := copyInto fParam params
    pure ({ flow with funcParams := flow.funcParams.insert fid params }, none)

/-- The method `KisFlow.Link(fConf, fParams)`: it creates the stage and appends
it. `newId` is the identity issued to the stage by the identifier supplier. -/
def Link (flow : KisFlow PV Row) (newId : String) (fConf : KisFuncConfig PV)
    (fParams : FParam PV) : Option (KisFlow PV Row × Option KisError) :=
  match NewKisFunction newId fConf with
  | none => appendFunc flow none fParams
  | some o =>
    let (flow, f) := alloc flow o
    appendFunc flow (some f) fParams

/-- The arguments of one `Link` call, with the identity issued to its stage. -/
structure LinkCall (PV : Type) where
  newId : String
  fConf : KisFuncConfig PV
  fParams : FParam PV

/-- A sequence of `Link` calls, each of which returns nil; `none` as soon as a
call returns an error or panics. -/
def linkAll : KisFlow PV Row → List (LinkCall PV) → Option (KisFlow PV Row)
  | flow, [] => some flow
  | flow, c :: cs =>
    match Link flow c.newId c.fConf c.fParams with
    | some (flow', none) => linkAll flow' cs
    | _ => none

/-- Walk of the chain through `Next`, from `cur` until the absent link: the
stages visited, or `none` when the walk meets an unallocated address or is not
over after `fuel` stages. -/
def walkNext (flow : KisFlow PV Row) : Nat → Option Addr → Option (List Addr)
  | _, none => some []
  | 0, some _ => none
  | fuel + 1, some f =>
    match Next flow f with
    | none => none
    | some nxt => (walkNext flow fuel nxt).map (fun l => f :: l)

/-- Walk of the chain through `Prev`, from `cur` until the absent link. -/
def walkPrev (flow : KisFlow PV Row) : Nat → Option Addr → Option (List Addr)
  | _, none => some []
  | 0, some _ => none
  | fuel + 1, some f =>
    match Prev flow f with
    | none => none
    | some prv => (walkPrev flow fuel prv).map (fun l => f :: l)

/-! ## Dispatch and stage invocation -/

/-- The Go type `kis.FaaS`: a registered callback. It receives the pipeline and
may change it. -/
abbrev FaaS (PV Row Ctx : Type) := Ctx → KisFlow PV Row → KisFlow PV Row × Option KisError

/-- The Go type `kis.funcRouter`: logical stage name to callback. -/
abbrev funcRouter (PV Row Ctx : Type) := AList (fun _ : String => FaaS PV Row Ctx)

/-- Modelled from the spec: `kis.Pool().CallFunction` is not under src. The
spec: "invoke(name, executionContext, pipeline) fails with a "not registered"
condition if the name is absent, otherwise calls the stored callback and
propagates its result unchanged." -/
def CallFunction (fnRouter : funcRouter PV Row Ctx) (ctx : Ctx) (fnName : String)
    (flow : KisFlow PV Row) : KisFlow PV Row × Option KisError :=
  match fnRouter.lookup fnName with
  | some faas => faas ctx flow
  | none => (flow, some (KisError.notRegistered fnName))

/-- The method `KisFunctionV.Call(ctx, flow)`; `callFunction` is
`kis.Pool().CallFunction`. -/
def KisFunctionV.Call (callFunction : Ctx → String → KisFlow PV Row → KisFlow PV Row × Option KisError)
    (f : KisFunction PV) (ctx : Ctx) (flow : KisFlow PV Row) : KisFlow PV Row × Option KisError :=
  match callFunction ctx f.Config.FName flow with
  | (flow, some err) => (flow, some err)
  | (flow, none) => (flow, none)

/-- The method `KisFunctionL.Call(ctx, flow)`; `callFunction` is
`kis.Pool().CallFunction`. -/
def KisFunctionL.Call (callFunction : Ctx → String → KisFlow PV Row → KisFlow PV Row × Option KisError)
    (f : KisFunction PV) (ctx : Ctx) (flow : KisFlow PV Row) : KisFlow PV Row × Option KisError :=
  match callFunction ctx f.Config.FName flow with
  | (flow, some err) => (flow, some err)
  | (flow, none) => (flow, none)

/-- The interface call `fn.Call(ctx, flow)`: it runs the method of the concrete
type of the stage at address `fn`. -/
def Call (callFunction : Ctx → String → KisFlow PV Row → KisFlow PV Row × Option KisError)
    (flow : KisFlow PV Row) (fn : Addr) (ctx : Ctx) : Option (KisFlow PV Row × Option KisError) :=
  match flow.heap[fn]? with
  | none => none
  | some o =>
    match o.variant with
    | Variant.V => some (KisFunctionV.Call callFunction o ctx flow)
    | Variant.L => some (KisFunctionL.Call callFunction o ctx flow)

/-! ## The run loop -/

/-- What `Run` uses and src does not hold: two constants of package `common`,
the dispatch entry point of the registry, and the three data-staging methods of
`KisFlow`. Each method may change the pipeline and may fail. -/
structure Env (PV Row Ctx : Type) where
  FlowDisable : Int
  FunctionIdFirstVirtual : String
  CallFunction : Ctx → String → KisFlow PV Row → KisFlow PV Row × Option KisError
  commitSrcData : Ctx → KisFlow PV Row → KisFlow PV Row × Option KisError
  getCurData : KisFlow PV Row → KisFlow PV Row × List Row × Option KisError
  commitCurData : Ctx → KisFlow PV Row → KisFlow PV Row × Option KisError

/-- The operations `Run` performs on its collaborators. -/
inductive Op where
  | commitSrcData
  | getCurData (fn : Addr)
  | Call (fn : Addr)
  | commitCurData (fn : Addr)
  deriving DecidableEq, Repr

/-- One entry of the log of a run: the operation, the pipeline it was applied
to, the error it returned, and the pipeline as the operation left it. The log is
not part of the Go state; it records what `Run` did, in order. -/
structure Event (PV Row : Type) where
  op : Op
  before : KisFlow PV Row
  err : Option KisError
  after : KisFlow PV Row

/-- The result of `Run`: the pipeline afterwards, the returned error, and the
log of the operations performed. -/
structure Outcome (PV Row : Type) where
  flow : KisFlow PV Row
  err : Option KisError
  trace : List (Event PV Row)

/-- The cursor update at the head of the loop body of `Run`:
`if flow.ThisFunctionId != "" { flow.PrevFunctionId = flow.ThisFunctionId }`,
then `flow.ThisFunction = fn` and `flow.ThisFunctionId = fid`. -/
def recordCursor (flow : KisFlow PV Row) (fn : Addr) (fid : String) : KisFlow PV Row :=
  let flow :=
    if flow.ThisFunctionId ≠ "" then { flow with PrevFunctionId := flow.ThisFunctionId }
    else flow
  { flow with ThisFunction := some fn, ThisFunctionId := fid }

/-- The assignment `flow.inPut = inputData` of the loop body of `Run`. -/
def setInPut (flow : KisFlow PV Row) (inputData : List Row) : KisFlow PV Row :=
  { flow with inPut := inputData }

/-- The assignment `flow.PrevFunctionId = common.FunctionIdFirstVirtual` of `Run`. -/
def setPrevFunctionId (flow : KisFlow PV Row) (fid : String) : KisFlow PV Row :=
  { flow with PrevFunctionId := fid }

/-- The loop `for fn != nil` of `Run`, with the log so far. `none` when
the loop is not over after `fuel` iterations or a stage reference is not
allocated. -/
def runLoop (env : Env PV Row Ctx) (ctx : Ctx) :
    Nat → Option Addr → KisFlow PV Row → List (Event PV Row) → Option (Outcome PV Row)
  | _, none, flow, tr => some ⟨flow, none, tr⟩
  | 0, some _, _, _ => none
  | fuel + 1, some fn, flow, tr =>
    match GetId flow fn with
    | none => none
    | some fid =>
      let flow := recordCursor flow fn fid
      match env.getCurData flow with
      | (flow', _, some err) =>
        some ⟨flow', some err, tr ++ [⟨Op.getCurData fn, flow, some err, flow'⟩]⟩
      | (flow', inputData, none) =>
        let tr := tr ++ [⟨Op.getCurData fn, flow, none, flow'⟩]
        let flow := setInPut flow' inputData
        match Call env.CallFunction flow fn ctx with
        | none => none
        | some (flow', some err) =>
          some ⟨flow', some err, tr ++ [⟨Op.Call fn, flow, some err, flow'⟩]⟩
        | some (flow', none) =>
          let tr := tr ++ [⟨Op.Call fn, flow, none, flow'⟩]
          let flow := flow'
          match env.commitCurData ctx flow with
          | (flow', some err) =>
            some ⟨flow', some err, tr ++ [⟨Op.commitCurData fn, flow, some err, flow'⟩]⟩
          | (flow', none) =>
            match Next flow' fn with
            | none => none
            | some nxt =>
              runLoop env ctx fuel nxt flow' (tr ++ [⟨Op.commitCurData fn, flow, none, flow'⟩])

/-- The method `KisFlow.Run(ctx)`. The result is `none` when the loop is not over
after `fuel` iterations. -/
def Run (env : Env PV Row Ctx) (ctx : Ctx) (fuel : Nat) (flow : KisFlow PV Row) :
    Option (Outcome PV Row) :=
  let fn := flow.FlowHead
  if flow.Conf.Status = env.FlowDisable then
    some ⟨flow, none, []⟩
  else
    let flow := setPrevFunctionId flow env.FunctionIdFirstVirtual
    match env.commitSrcData ctx flow with
    | (flow', some err) => some ⟨flow', some err, [⟨Op.commitSrcData, flow, some err, flow'⟩]⟩
    | (flow', none) => runLoop env ctx fuel fn flow' [⟨Op.commitSrcData, flow, none, flow'⟩]

/-- The method `KisFlow.GetName()`. -/
def GetName (flow : KisFlow PV Row) : String :=
  flow.Name

/-- The method `KisFlow.GetThisFunction()`. -/
def GetThisFunction (flow : KisFlow PV Row) : Option Addr :=
  flow.ThisFunction

/-- The parts of a pipeline that `SetN` and `SetP` leave alone: the two maps,
and the identity and configuration of every stage. -/
def SameInfo (flow flow' : KisFlow PV Row) : Prop :=
  flow'.Funcs = flow.Funcs ∧ flow'.funcParams = flow.funcParams ∧
    ∀ b, GetId flow' b = GetId flow b ∧ GetConfig flow' b = GetConfig flow b

/-- The shape of a pipeline after the `Link` calls `calls`, all successful, on a
new pipeline: the stage of the call number `i` is at address `i`, with the
identity and configuration of that call, linked to its neighbours; the key sets
of the two maps are the identities issued. -/
structure Built (flow : KisFlow PV Row) (calls : List (LinkCall PV)) : Prop where
  len : flow.heap.length = calls.length
  head : flow.FlowHead = if calls.length = 0 then none else some 0
  tail : flow.FlowTail = if calls.length = 0 then none else some (calls.length - 1)
  node : ∀ i c, calls[i]? = some c → ∃ o, flow.heap[i]? = some o ∧
    o.Id = c.newId ∧ o.Config = c.fConf ∧
    o.N = (if i + 1 < calls.length then some (i + 1) else none) ∧
    o.P = (if i = 0 then none else some (i - 1))
  funcsKeys : ∀ k, k ∈ flow.Funcs ↔ ∃ c ∈ calls, c.newId = k
  funcsVal : ∀ k a, flow.Funcs.lookup k = some a → GetId flow a = some k
  paramsKeys : ∀ k, k ∈ flow.funcParams ↔ ∃ c ∈ calls, c.newId = k

/-- Go map objects, by address. A map reference is an address of the store, or
`none` for the nil map. -/
abbrev MapStore (PV : Type) := List (FParam PV)

/-- The content of the map a reference refers to; the nil map has no entry. -/
def derefMap (store : MapStore PV) (r : Option Nat) : FParam PV :=
  match r with
  | none => ∅
  | some a => (store[a]?).getD ∅

/-- The Go statement `m[key] = value` on the map object at address `m`; `none`
when `m` is not allocated. -/
def mapAssign (store : MapStore PV) (m : Nat) (key : String) (value : PV) :
    Option (MapStore PV) :=
  match store[m]? with
  | none => none
  | some t => some (store.set m (t.insert key value))

/-- The loop `for key, value := range src { params[key] = value }` of
`appendFunc` on map objects: every entry of the map `src` refers to is assigned
in the map object at address `params`; ranging over the nil map does nothing. -/
def rangeAssign (store : MapStore PV) (src : Option Nat) (params : Nat) :
    Option (MapStore PV) :=
  match src with
  | none => some store
  | some s =>
    match store[s]? with
    | none => none
    | some m => m.entries.foldlM (fun st kv => mapAssign st params kv.1 kv.2) store

/-- Lines 100 to 108 of `appendFunc` on map objects: `params :=
make(config.FParam)` allocates a new map object, the first loop ranges over the
default parameters of the stage configuration (`Option.Params`), the second over
the map `fParam` of the caller. The result is the store afterwards and the
address of `params`. -/
def resolveParams (store : MapStore PV) (defaults fParam : Option Nat) :
    Option (MapStore PV × Nat) :=
  let params := store.length
  let store := store ++ [∅]
  match rangeAssign store defaults params with
  | none => none
  | some store =>
    match rangeAssign store fParam params with
    | none => none
    | some store => some (store, params)

/-! ## Concrete pipelines, used as instances of the theorems -/

/-- Configuration of an enabled pipeline (the disabled status is taken as 0). -/
def demoConf : KisFlowConfig := { FlowName := "demo", Status := 1 }

/-- A stage configuration without default parameters. -/
def demoStage (fname : String) (mode : KisMode) : KisFuncConfig Int :=
  { FName := fname, FMode := mode, Params := ∅ }

/-- A new pipeline. -/
def demoNew : KisFlow Int Int := NewKisFlow "flow-1" demoConf

/-- Three `Link` calls with distinct identities. -/
def demoCalls : List (LinkCall Int) :=
  [⟨"func-1", demoStage "double" KisMode.V, ∅⟩,
   ⟨"func-2", demoStage "fail" KisMode.L, ∅⟩,
   ⟨"func-3", demoStage "addOne" KisMode.V, ∅⟩]

/-- The pipeline after the three calls of `demoCalls`. -/
def demoFlow : KisFlow Int Int := (linkAll demoNew demoCalls).getD demoNew

/-- Default parameters `{"x":1,"y":2}`. -/
def xyDefaults : FParam Int := AList.insert "x" 1 (AList.insert "y" 2 ∅)

/-- Overrides `{"y":9,"z":3}`. -/
def yzOverrides : FParam Int := AList.insert "y" 9 (AList.insert "z" 3 ∅)

/-- A stage configuration with the defaults `xyDefaults`. -/
def xyStage : KisFuncConfig Int := { FName := "scale", FMode := KisMode.V, Params := xyDefaults }

/-- The pipeline after linking `xyStage` with the overrides `yzOverrides`. -/
def xyFlow : KisFlow Int Int :=
  ((Link demoNew "func-1" xyStage yzOverrides).map Prod.fst).getD demoNew

/-- Two `Link` calls to which the same identity was issued. -/
def dupCalls : List (LinkCall Int) :=
  [⟨"func-1", demoStage "double" KisMode.V, ∅⟩,
   ⟨"func-1", demoStage "addOne" KisMode.V, yzOverrides⟩]

/-- The pipeline after the first call of `dupCalls`. -/
def dupFlow1 : KisFlow Int Int :=
  (linkAll demoNew [⟨"func-1", demoStage "double" KisMode.V, ∅⟩]).getD demoNew

/-- The pipeline after both calls of `dupCalls`. -/
def dupFlow2 : KisFlow Int Int := (linkAll demoNew dupCalls).getD demoNew

/-- Callbacks of the instances: `double` doubles every input row and `addOne`
adds one to every input row, each leaving its output in `buffer`; `fail`
returns an error. -/
def demoRouter : funcRouter Int Int Unit :=
  AList.insert "double" (fun _ fl => ({ fl with buffer := fl.inPut.map (fun r => r * 2) }, none))
    (AList.insert "addOne" (fun _ fl => ({ fl with buffer := fl.inPut.map (fun r => r + 1) }, none))
      (AList.insert "fail" (fun _ fl => (fl, some (KisError.msg "boom"))) ∅))

/-- Collaborators of the instances. The source commit stores `buffer` under the
virtual first identity, the commit of a stage stores `buffer` under the
identity of the current stage, and the input of a stage is what is stored under
the identity of its predecessor. The data-staging operation `failAt`, if any,
fails instead. -/
def demoEnv (failAt : Option Op) : Env Int Int Unit where
  FlowDisable := 0
  FunctionIdFirstVirtual := "FunctionIdFirstVirtual"
  CallFunction := CallFunction demoRouter
  commitSrcData := fun _ fl =>
    if failAt = some Op.commitSrcData then (fl, some (KisError.msg "commitSrcData failed"))
    else ({ fl with data := fl.data.insert fl.PrevFunctionId fl.buffer, buffer := [] }, none)
  getCurData := fun fl =>
    if failAt = fl.ThisFunction.map Op.getCurData then
      (fl, [], some (KisError.msg "getCurData failed"))
    else (fl, (fl.data.lookup fl.PrevFunctionId).getD [], none)
  commitCurData := fun _ fl =>
    if failAt = fl.ThisFunction.map Op.commitCurData then
      (fl, some (KisError.msg "commitCurData failed"))
    else ({ fl with data := fl.data.insert fl.ThisFunctionId fl.buffer, buffer := [] }, none)

/-- The pipeline `demoFlow` (stages `double`, `fail`, `addOne`) with the source
rows 1, 2, 3 in its buffer. -/
def demoInput : KisFlow Int Int := { demoFlow with buffer := [1, 2, 3] }

/-- Two `Link` calls: stage A doubles, stage B adds one. -/
def okCalls : List (LinkCall Int) :=
  [⟨"func-A", demoStage "double" KisMode.V, ∅⟩,
   ⟨"func-B", demoStage "addOne" KisMode.L, ∅⟩]

/-- The pipeline of `okCalls` with the source rows 1, 2, 3 in its buffer. -/
def okInput : KisFlow Int Int := { (linkAll demoNew okCalls).getD demoNew with buffer := [1, 2, 3] }

/-- Configuration of a disabled pipeline. -/
def offConf : KisFlowConfig := { FlowName := "off", Status := 0 }

/-- A disabled pipeline with three stages and source rows in its buffer. -/
def offInput : KisFlow Int Int := { demoInput with Conf := offConf }

/-- What the instances show of an outcome: the returned error, the data staged
under four identities, and the operations of the log with their errors. -/
def Outcome.summary (out : Outcome Int Int) :
    Option KisError × List (Option (List Int)) × List (Op × Option KisError) :=
  (out.err,
   ["FunctionIdFirstVirtual", "func-1", "func-2", "func-3", "func-A", "func-B", "func-X"].map
     (fun k => out.flow.data.lookup k),
   out.trace.map (fun ev => (ev.op, ev.err)))

/-- The pipeline `demoFlow` with one more stage object allocated, at address 3,
and not linked yet. -/
def demoAlloc : KisFlow Int Int :=
  (alloc demoFlow ⟨Variant.V, "func-4", demoStage "double" KisMode.V, none, none⟩).1

/-- The pipeline `okInput` as its first run leaves it, with the new source rows
10, 20 in its buffer. -/
def secondInput : KisFlow Int Int :=
  { ((Run (demoEnv none) () 2 okInput).map (fun out => out.flow)).getD okInput with
    buffer := [10, 20] }

/-- What the instances show of the cursor: for every log entry, the operation
and the `PrevFunctionId`, `ThisFunctionId` and `ThisFunction` it was applied
with. -/
def Outcome.cursors (out : Outcome Int Int) : List (Op × String × String × Option Addr) :=
  out.trace.map (fun ev =>
    (ev.op, ev.before.PrevFunctionId, ev.before.ThisFunctionId, ev.before.ThisFunction))

/-- A store with two map objects: the defaults `{"x":1,"y":2}` at address 0 and
the overrides `{"y":9,"z":3}` at address 1. -/
def xyStore : MapStore Int := [xyDefaults, yzOverrides]

/-- The pipeline after the first two calls of `demoCalls`. -/
def demoFlow2 : KisFlow Int Int := (linkAll demoNew (demoCalls.take 2)).getD demoNew

/-! # Theorems -/

/-! ## Parameter tables -/

theorem foldl_insert_lookup (l : List (Sigma (fun _ : String => PV))) (hl : l.NodupKeys)
    (acc : FParam PV) (k : String) :
    (l.foldl (fun acc kv => acc.insert kv.1 kv.2) acc).lookup k =
      match l.dlookup k with
      | some v => some v
      | none => acc.lookup k := by
  induction l generalizing acc with
  | nil => simp
  | cons x xs ih =>
    obtain ⟨hx, hxs⟩ := List.nodupKeys_cons.mp hl
    rw [List.foldl_cons, ih hxs]
    by_cases hk : k = x.1
    · subst hk
      have hnone : xs.dlookup x.1 = none := List.dlookup_eq_none.mpr hx
      rw [hnone]
      obtain ⟨xk, xv⟩ := x
      simp [List.dlookup_cons_eq, AList.lookup_insert]
    · rw [List.dlookup_cons_ne xs x hk]
      cases xs.dlookup k with
      | some v => rfl
      | none => simp [AList.lookup_insert_ne hk]

theorem copyInto_lookup (m params : FParam PV) (k : String) :
    (copyInto m params).lookup k =
      match m.lookup k with
      | some v => some v
      | none => params.lookup k :=
  foldl_insert_lookup m.entries m.nodupKeys params k

/-! ## Linking: what one `Link` call does -/

theorem NewKisFunction_some {newId : String} {fConf : KisFuncConfig PV} {o : KisFunction PV}
    (h : NewKisFunction newId fConf = some o) :
    o.Id = newId ∧ o.Config = fConf ∧ o.N = none ∧ o.P = none := by
  unfold NewKisFunction at h
  split at h <;> simp at h <;> subst h <;> simp

theorem NewKisFunction_isSome (newId : String) {fConf : KisFuncConfig PV}
    (h : fConf.FMode ≠ KisMode.unsupported) : ∃ o, NewKisFunction newId fConf = some o := by
  unfold NewKisFunction
  split
  · exact ⟨_, rfl⟩
  · exact ⟨_, rfl⟩
  · rename_i hm
    exact absurd hm h

theorem Link_first (flow : KisFlow PV Row) {newId : String} {fConf : KisFuncConfig PV}
    (fParams : FParam PV) {o : KisFunction PV} (hN : NewKisFunction newId fConf = some o)
    (hh : flow.FlowHead = none) :
    Link flow newId fConf fParams =
      some ({ flow with
              heap := flow.heap ++ [o]
              FlowHead := some flow.heap.length
              FlowTail := some flow.heap.length
              Funcs := flow.Funcs.insert newId flow.heap.length
              funcParams := flow.funcParams.insert newId
                (copyInto fParams (copyInto fConf.Params ∅)) }, none) := by
  obtain ⟨hid, hconf, hn, hp⟩ := NewKisFunction_some hN
  obtain ⟨v, i, c, n, p⟩ := o
  simp only at hid hconf hn hp
  subst hid hconf hn hp
  simp [Link, hN, alloc, appendFunc, hh, SetN, SetP, GetId, GetConfig, bind, pure]

theorem Link_next (flow : KisFlow PV Row) {newId : String} {fConf : KisFuncConfig PV}
    (fParams : FParam PV) {o ot : KisFunction PV} {h t : Addr}
    (hN : NewKisFunction newId fConf = some o)
    (hh : flow.FlowHead = some h) (ht : flow.FlowTail = some t) (hot : flow.heap[t]? = some ot) :
    Link flow newId fConf fParams =
      some ({ flow with
              heap := flow.heap.set t { ot with N := some flow.heap.length } ++
                [{ o with P := some t }]
              FlowTail := some flow.heap.length
              Funcs := flow.Funcs.insert newId flow.heap.length
              funcParams := flow.funcParams.insert newId
                (copyInto fParams (copyInto fConf.Params ∅)) }, none) := by
  obtain ⟨hid, hconf, hn, hp⟩ := NewKisFunction_some hN
  obtain ⟨v, i, c, n, p⟩ := o
  simp only at hid hconf hn hp
  subst hid hconf hn hp
  have htl : t < flow.heap.length := (List.getElem?_eq_some.mp hot).1
  simp [Link, hN, alloc, appendFunc, hh, ht, SetN, SetP, GetId, GetConfig, bind, pure,
    List.getElem?_append_left htl, hot, List.set_append_left _ _ htl]

theorem SetN_some {flow flow' : KisFlow PV Row} {f : Addr} {v : Option Addr}
    (h : SetN flow f v = some flow') :
    ∃ o, flow.heap[f]? = some o ∧ flow' = { flow with heap := flow.heap.set f { o with N := v } } := by
  unfold SetN at h
  split at h
  · simp at h
  · rename_i o ho
    simp at h
    exact ⟨o, ho, h.symm⟩

theorem SetP_some {flow flow' : KisFlow PV Row} {f : Addr} {v : Option Addr}
    (h : SetP flow f v = some flow') :
    ∃ o, flow.heap[f]? = some o ∧ flow' = { flow with heap := flow.heap.set f { o with P := v } } := by
  unfold SetP at h
  split at h
  · simp at h
  · rename_i o ho
    simp at h
    exact ⟨o, ho, h.symm⟩

theorem SetN_sameInfo {flow flow' : KisFlow PV Row} {f : Addr} {v : Option Addr}
    (h : SetN flow f v = some flow') : SameInfo flow flow' := by
  obtain ⟨o, ho, rfl⟩ := SetN_some h
  refine ⟨rfl, rfl, fun b => ?_⟩
  by_cases hb : f = b
  · subst hb
    simp [GetId, GetConfig, List.getElem?_set, ho, (List.getElem?_eq_some.mp ho).1]
  · simp [GetId, GetConfig, List.getElem?_set_ne hb]

theorem SetP_sameInfo {flow flow' : KisFlow PV Row} {f : Addr} {v : Option Addr}
    (h : SetP flow f v = some flow') : SameInfo flow flow' := by
  obtain ⟨o, ho, rfl⟩ := SetP_some h
  refine ⟨rfl, rfl, fun b => ?_⟩
  by_cases hb : f = b
  · subst hb
    simp [GetId, GetConfig, List.getElem?_set, ho, (List.getElem?_eq_some.mp ho).1]
  · simp [GetId, GetConfig, List.getElem?_set_ne hb]

theorem SameInfo.trans {a b c : KisFlow PV Row} (h1 : SameInfo a b) (h2 : SameInfo b c) :
    SameInfo a c :=
  ⟨h2.1.trans h1.1, h2.2.1.trans h1.2.1,
    fun x => ⟨((h2.2.2 x).1).trans (h1.2.2 x).1, ((h2.2.2 x).2).trans (h1.2.2 x).2⟩⟩

theorem appendFunc_ok {flow flow' : KisFlow PV Row} {fn : Addr} {fParam : FParam PV}
    (h : appendFunc flow (some fn) fParam = some (flow', none)) :
    ∃ fid conf, GetId flow fn = some fid ∧ GetConfig flow fn = some conf ∧
      flow'.Funcs = flow.Funcs.insert fid fn ∧
      flow'.funcParams = flow.funcParams.insert fid (copyInto fParam (copyInto conf.Params ∅)) := by
  simp only [appendFunc, bind, Option.bind_eq_some, pure] at h
  obtain ⟨flow2, hbr, fid, hfid, conf, hconf, hfin⟩ := h
  have hsame : SameInfo flow flow2 := by
    split at hbr
    · simp only [Option.bind_eq_some] at hbr
      obtain ⟨fl1, h1, h2⟩ := hbr
      have s1 := SetN_sameInfo h1
      have s2 := SetP_sameInfo h2
      have s0 : SameInfo flow { flow with FlowHead := some fn, FlowTail := some fn } :=
        ⟨rfl, rfl, fun _ => ⟨rfl, rfl⟩⟩
      exact (s0.trans s1).trans s2
    · simp only [Option.bind_eq_some] at hbr
      obtain ⟨fl1, h1, fl2, h2, tl, _, fl3, h3, h4⟩ := hbr
      have s1 := SetP_sameInfo h1
      have s2 := SetN_sameInfo h2
      have s3 := SetN_sameInfo h3
      have s4 : SameInfo fl3 flow2 := by
        simp at h4
        subst h4
        exact ⟨rfl, rfl, fun _ => ⟨rfl, rfl⟩⟩
      exact ((s1.trans s2).trans s3).trans s4
  obtain ⟨hF, hP, hI⟩ := hsame
  refine ⟨fid, conf, (hI fn).1 ▸ hfid, (hI fn).2 ▸ hconf, ?_, ?_⟩
  · simp at hfin
    rw [← hfin, ← hF]
  · simp at hfin
    rw [← hfin, ← hP]

theorem Link_ok {flow flow' : KisFlow PV Row} {newId : String} {fConf : KisFuncConfig PV}
    {fParams : FParam PV} (h : Link flow newId fConf fParams = some (flow', none)) :
    (∃ o, NewKisFunction newId fConf = some o) ∧
      flow'.Funcs = flow.Funcs.insert newId flow.heap.length ∧
      flow'.funcParams =
        flow.funcParams.insert newId (copyInto fParams (copyInto fConf.Params ∅)) := by
  unfold Link at h
  split at h
  · simp [appendFunc] at h
  · rename_i o hN
    obtain ⟨hid, hconf, _, _⟩ := NewKisFunction_some hN
    simp only [alloc] at h
    obtain ⟨fid, conf, h1, h2, h3, h4⟩ := appendFunc_ok h
    simp [GetId] at h1
    simp [GetConfig] at h2
    refine ⟨⟨o, hN⟩, ?_, ?_⟩
    · rw [h3, ← h1, hid]
    · rw [h4, ← h1, ← h2, hid, hconf]

/-! ## Linking: the shape of a pipeline built by `Link` calls -/

theorem Built_new (flowId : String) (conf : KisFlowConfig) :
    Built (NewKisFlow flowId conf : KisFlow PV Row) [] := by
  refine ⟨rfl, rfl, rfl, ?_, ?_, ?_, ?_⟩
  · intro i c h
    simp at h
  · intro k
    simp [NewKisFlow]
  · intro k a h
    simp [NewKisFlow] at h
  · intro k
    simp [NewKisFlow]

theorem Built_step {flow flow' : KisFlow PV Row} {calls : List (LinkCall PV)} {c : LinkCall PV}
    (hb : Built flow calls) (h : Link flow c.newId c.fConf c.fParams = some (flow', none)) :
    Built flow' (calls ++ [c]) := by
  obtain ⟨⟨o, hN⟩, hF, hP⟩ := Link_ok h
  obtain ⟨hid, hconf, hn, hp⟩ := NewKisFunction_some hN
  have hkeysF : ∀ k, k ∈ flow'.Funcs ↔ ∃ c' ∈ calls ++ [c], c'.newId = k := by
    intro k
    rw [hF, AList.mem_insert, hb.funcsKeys]
    constructor
    · rintro (rfl | ⟨c', hc', rfl⟩)
      · exact ⟨c, by simp, rfl⟩
      · exact ⟨c', by simp [hc'], rfl⟩
    · rintro ⟨c', hc', rfl⟩
      rcases List.mem_append.mp hc' with hc' | hc'
      · exact Or.inr ⟨c', hc', rfl⟩
      · simp at hc'
        exact Or.inl (by rw [hc'])
  have hkeysP : ∀ k, k ∈ flow'.funcParams ↔ ∃ c' ∈ calls ++ [c], c'.newId = k := by
    intro k
    rw [hP, AList.mem_insert, hb.paramsKeys]
    constructor
    · rintro (rfl | ⟨c', hc', rfl⟩)
      · exact ⟨c, by simp, rfl⟩
      · exact ⟨c', by simp [hc'], rfl⟩
    · rintro ⟨c', hc', rfl⟩
      rcases List.mem_append.mp hc' with hc' | hc'
      · exact Or.inr ⟨c', hc', rfl⟩
      · simp at hc'
        exact Or.inl (by rw [hc'])
  by_cases hz : calls.length = 0
  · -- first insertion
    have hh : flow.FlowHead = none := by rw [hb.head, if_pos hz]
    have hcalls : calls = [] := List.length_eq_zero.mp hz
    have hheap : flow.heap = [] := List.length_eq_zero.mp (hb.len.trans hz)
    rw [Link_first flow c.fParams hN hh] at h
    simp only [Option.some.injEq, Prod.mk.injEq, and_true] at h
    subst h
    subst hcalls
    refine ⟨by simp [hheap], by simp [hheap], by simp [hheap], ?_, hkeysF, ?_, hkeysP⟩
    · intro i c' hc'
      have hi : i = 0 := by
        have := (List.getElem?_eq_some.mp hc').1
        simp at this
        exact this
      subst hi
      simp at hc'
      subst hc'
      exact ⟨o, by simp [hheap], hid, hconf, by simp [hn], by simp [hp]⟩
    · intro k a hka
      simp only [hheap, List.length_nil] at hka
      by_cases hk : k = c.newId
      · subst hk
        rw [AList.lookup_insert] at hka
        simp at hka
        subst hka
        simp [GetId, hheap, hid]
      · rw [AList.lookup_insert_ne hk] at hka
        have := hb.funcsVal k a hka
        simp [GetId, hheap] at this
  · -- insertion after the tail
    have hpos : 0 < calls.length := Nat.pos_of_ne_zero hz
    have hh : flow.FlowHead = some 0 := by rw [hb.head, if_neg hz]
    have ht : flow.FlowTail = some (calls.length - 1) := by rw [hb.tail, if_neg hz]
    have hlt : calls.length - 1 < calls.length := by omega
    obtain ⟨ct, hct⟩ : ∃ ct, calls[calls.length - 1]? = some ct :=
      ⟨calls[calls.length - 1], List.getElem?_eq_getElem hlt⟩
    obtain ⟨ot, hot, hotid, hotconf, hotn, hotp⟩ := hb.node _ _ hct
    rw [Link_next flow c.fParams hN hh ht hot] at h
    simp only [Option.some.injEq, Prod.mk.injEq, and_true] at h
    subst h
    have hlen := hb.len
    refine ⟨by simp [hlen], by simp [hh], by simp [hlen], ?_, hkeysF, ?_, hkeysP⟩
    · intro i c' hc'
      have hi : i < calls.length + 1 := by
        have := (List.getElem?_eq_some.mp hc').1
        simpa using this
      by_cases hin : i = calls.length
      · -- the new stage
        subst hin
        simp at hc'
        subst hc'
        refine ⟨{ o with P := some (calls.length - 1) }, ?_, hid, hconf, ?_, ?_⟩
        · rw [List.getElem?_append_right (by simp [hlen])]
          simp [hlen]
        · simp [hn]
        · simp [hz]
      · have hil : i < calls.length := by omega
        rw [List.getElem?_append_left hil] at hc'
        obtain ⟨oi, hoi, hoid, hoconf, hoin, hoip⟩ := hb.node _ _ hc'
        by_cases hit : i = calls.length - 1
        · -- the former tail
          subst hit
          rw [hot] at hoi
          simp only [Option.some.injEq] at hoi
          subst hoi
          refine ⟨{ ot with N := some flow.heap.length }, ?_, hoid, hoconf, ?_, hoip⟩
          · rw [List.getElem?_append_left (by simp [hlen, hil])]
            simp [List.getElem?_set, hlen, hil]
          · have : calls.length - 1 + 1 = calls.length := by omega
            simp [hlen, this]
        · refine ⟨oi, ?_, hoid, hoconf, ?_, hoip⟩
          · rw [List.getElem?_append_left (by simp [hlen, hil])]
            rw [List.getElem?_set_ne (fun hne => hit hne.symm)]
            exact hoi
          · rw [hoin]
            have h1 : i + 1 < calls.length := by omega
            have h2 : i + 1 < (calls ++ [c]).length := by simp; omega
            rw [if_pos h1, if_pos h2]
    · intro k a hka
      have key : ∀ b, b < flow.heap.length →
          GetId ({ flow with
              heap := flow.heap.set (calls.length - 1) { ot with N := some flow.heap.length } ++
                [{ o with P := some (calls.length - 1) }]
              FlowTail := some flow.heap.length
              Funcs := flow.Funcs.insert c.newId flow.heap.length
              funcParams := flow.funcParams.insert c.newId
                (copyInto c.fParams (copyInto c.fConf.Params ∅)) } : KisFlow PV Row) b =
            GetId flow b := by
        intro b hb'
        unfold GetId
        simp only
        rw [List.getElem?_append_left (by simp [hb'])]
        by_cases hbt : calls.length - 1 = b
        · subst hbt
          simp [List.getElem?_set, hot, hlen, hpos]
        · rw [List.getElem?_set_ne hbt]
      by_cases hk : k = c.newId
      · subst hk
        rw [AList.lookup_insert] at hka
        simp only [Option.some.injEq] at hka
        subst hka
        unfold GetId
        simp only
        rw [List.getElem?_append_right (by simp)]
        simp [hid]
      · rw [AList.lookup_insert_ne hk] at hka
        have hold := hb.funcsVal k a hka
        have hal : a < flow.heap.length := by
          unfold GetId at hold
          cases hg : flow.heap[a]? with
          | none => simp [hg] at hold
          | some x => exact (List.getElem?_eq_some.mp hg).1
        rw [key a hal]
        exact hold

theorem Built_linkAll {calls : List (LinkCall PV)} :
    ∀ {done : List (LinkCall PV)} {flow flow' : KisFlow PV Row},
      Built flow done → linkAll flow calls = some flow' → Built flow' (done ++ calls) := by
  induction calls with
  | nil =>
    intro done flow flow' hb h
    simp [linkAll] at h
    subst h
    simpa using hb
  | cons c cs ih =>
    intro done flow flow' hb h
    unfold linkAll at h
    split at h
    · rename_i fl hl
      have := ih (Built_step hb hl) h
      simpa using this
    · simp at h

theorem Built_of_linkAll {flowId : String} {conf : KisFlowConfig} {calls : List (LinkCall PV)}
    {flow : KisFlow PV Row} (h : linkAll (NewKisFlow flowId conf) calls = some flow) :
    Built flow calls := by
  have := Built_linkAll (Built_new flowId conf) h
  simpa using this

theorem walkNext_built {flow : KisFlow PV Row} {calls : List (LinkCall PV)} (hb : Built flow calls) :
    ∀ (j i fuel : Nat), i + j = calls.length → j ≤ fuel →
      walkNext flow fuel (if i < calls.length then some i else none) = some (List.range' i j) := by
  intro j
  induction j with
  | zero =>
    intro i fuel hij _
    have : ¬ i < calls.length := by omega
    rw [if_neg this]
    cases fuel <;> simp [walkNext]
  | succ j ih =>
    intro i fuel hij hfuel
    have hi : i < calls.length := by omega
    rw [if_pos hi]
    obtain ⟨fuel', rfl⟩ : ∃ f, fuel = f + 1 := ⟨fuel - 1, by omega⟩
    obtain ⟨o, ho, _, _, hoN, _⟩ := hb.node i calls[i] (List.getElem?_eq_getElem hi)
    have hnext : Next flow i = some (if i + 1 < calls.length then some (i + 1) else none) := by
      simp [Next, ho, hoN]
    simp only [walkNext, hnext]
    rw [ih (i + 1) fuel' (by omega) (by omega)]
    simp [List.range'_succ]

theorem walkPrev_built {flow : KisFlow PV Row} {calls : List (LinkCall PV)} (hb : Built flow calls) :
    ∀ (i fuel : Nat), i < calls.length → i + 1 ≤ fuel →
      walkPrev flow fuel (some i) = some (List.range (i + 1)).reverse := by
  intro i
  induction i with
  | zero =>
    intro fuel hi hfuel
    obtain ⟨fuel', rfl⟩ : ∃ f, fuel = f + 1 := ⟨fuel - 1, by omega⟩
    obtain ⟨o, ho, _, _, _, hoP⟩ := hb.node 0 calls[0] (List.getElem?_eq_getElem hi)
    have hprev : Prev flow 0 = some none := by simp [Prev, ho, hoP]
    simp only [walkPrev, hprev]
    cases fuel' <;> simp [walkPrev] <;> rfl
  | succ i ih =>
    intro fuel hi hfuel
    obtain ⟨fuel', rfl⟩ : ∃ f, fuel = f + 1 := ⟨fuel - 1, by omega⟩
    obtain ⟨o, ho, _, _, _, hoP⟩ := hb.node (i + 1) calls[i + 1] (List.getElem?_eq_getElem hi)
    have hprev : Prev flow (i + 1) = some (some i) := by simp [Prev, ho, hoP]
    simp only [walkPrev, hprev]
    rw [ih fuel' (by omega) (by omega)]
    simp [List.range_succ]

theorem Built_walkNext {flow : KisFlow PV Row} {calls : List (LinkCall PV)} (hb : Built flow calls)
    {fuel : Nat} (hfuel : calls.length ≤ fuel) :
    walkNext flow fuel flow.FlowHead = some (List.range calls.length) := by
  have h := walkNext_built hb calls.length 0 fuel (by omega) hfuel
  rw [hb.head]
  rw [List.range_eq_range']
  by_cases hz : calls.length = 0
  · simp [hz] at h ⊢
    exact h
  · have hpos : 0 < calls.length := Nat.pos_of_ne_zero hz
    simp only [hpos, if_true] at h
    simp only [hz, if_false]
    exact h

theorem Built_walkPrev {flow : KisFlow PV Row} {calls : List (LinkCall PV)} (hb : Built flow calls)
    {fuel : Nat} (hfuel : calls.length ≤ fuel) :
    walkPrev flow fuel flow.FlowTail = some (List.range calls.length).reverse := by
  rw [hb.tail]
  by_cases hz : calls.length = 0
  · simp only [hz, if_true]
    cases fuel <;> simp [walkPrev]
  · simp only [hz, if_false]
    have h := walkPrev_built hb (calls.length - 1) fuel (by omega) (by omega)
    have e : calls.length - 1 + 1 = calls.length := by omega
    rw [e] at h
    exact h

theorem Built_info {flow : KisFlow PV Row} {calls : List (LinkCall PV)} (hb : Built flow calls)
    {i : Nat} {c : LinkCall PV} (hc : calls[i]? = some c) :
    GetId flow i = some c.newId ∧ GetConfig flow i = some c.fConf := by
  obtain ⟨o, ho, hid, hconf, _, _⟩ := hb.node i c hc
  simp [GetId, GetConfig, ho, hid, hconf]

/-! ## Claims on linking -/

/-- C1 (chain integrity). After N successful `Link` calls on a pipeline created
by `NewKisFlow`, the walk from `FlowHead` through `Next` ends (at the absent
link) after exactly the N stages, in the order of the calls: the stage visited
in position `i` carries the identity and configuration of call `i`. The last
stage of the walk is `FlowTail`; the walk from `FlowTail` through `Prev` visits
the same stages in reverse order; the previous link of `FlowHead` and the next
link of `FlowTail` are absent. -/
theorem C1_chain_integrity (flowId : String) (conf : KisFlowConfig) (calls : List (LinkCall PV))
    (flow : KisFlow PV Row) (fuel : Nat)
    (hlink : linkAll (NewKisFlow flowId conf) calls = some flow)
    (hfuel : calls.length ≤ fuel) :
    walkNext flow fuel flow.FlowHead = some (List.range calls.length) ∧
    (∀ i c, calls[i]? = some c →
      GetId flow i = some c.newId ∧ GetConfig flow i = some c.fConf) ∧
    flow.FlowTail = (List.range calls.length).getLast? ∧
    walkPrev flow fuel flow.FlowTail = some (List.range calls.length).reverse ∧
    (∀ hd, flow.FlowHead = some hd → Prev flow hd = some none) ∧
    (∀ tl, flow.FlowTail = some tl → Next flow tl = some none) := by
  have hb : Built flow calls := Built_of_linkAll hlink
  refine ⟨Built_walkNext hb hfuel, fun i c hc => Built_info hb hc, ?_, Built_walkPrev hb hfuel,
    ?_, ?_⟩
  · rw [hb.tail]
    by_cases hz : calls.length = 0
    · simp [hz]
    · obtain ⟨m, hm⟩ : ∃ m, calls.length = m + 1 := ⟨calls.length - 1, by omega⟩
      simp [hm, List.range_succ]
  · intro hd hhd
    rw [hb.head] at hhd
    by_cases hz : calls.length = 0
    · simp [hz] at hhd
    · simp only [hz, if_false, Option.some.injEq] at hhd
      subst hhd
      have hpos : 0 < calls.length := Nat.pos_of_ne_zero hz
      obtain ⟨o, ho, _, _, _, hoP⟩ := hb.node 0 calls[0] (List.getElem?_eq_getElem hpos)
      simp [Prev, ho, hoP]
  · intro tl htl
    rw [hb.tail] at htl
    by_cases hz : calls.length = 0
    · simp [hz] at htl
    · simp only [hz, if_false, Option.some.injEq] at htl
      subst htl
      have hlt : calls.length - 1 < calls.length := by omega
      obtain ⟨o, ho, _, _, hoN, _⟩ :=
        hb.node (calls.length - 1) calls[calls.length - 1] (List.getElem?_eq_getElem hlt)
      have : ¬ calls.length - 1 + 1 < calls.length := by omega
      simp [Next, ho, hoN, this]

theorem demoFlow_linked : linkAll (NewKisFlow "flow-1" demoConf) demoCalls = some demoFlow := rfl

/-- Instance of C1: the three stages of `demoFlow`. -/
theorem C1_chain_integrity_witness :
    linkAll (NewKisFlow "flow-1" demoConf) demoCalls = some demoFlow ∧ demoCalls.length ≤ 3 ∧
    (walkNext demoFlow 3 demoFlow.FlowHead = some (List.range demoCalls.length) ∧
    (∀ i c, demoCalls[i]? = some c →
      GetId demoFlow i = some c.newId ∧ GetConfig demoFlow i = some c.fConf) ∧
    demoFlow.FlowTail = (List.range demoCalls.length).getLast? ∧
    walkPrev demoFlow 3 demoFlow.FlowTail = some (List.range demoCalls.length).reverse ∧
    (∀ hd, demoFlow.FlowHead = some hd → Prev demoFlow hd = some none) ∧
    (∀ tl, demoFlow.FlowTail = some tl → Next demoFlow tl = some none)) :=
  ⟨demoFlow_linked, by decide,
    C1_chain_integrity "flow-1" demoConf demoCalls demoFlow 3 demoFlow_linked (by decide)⟩

/-- C2 (parameter override precedence). After a successful `Link` of a stage
with configured defaults `D = fConf.Params` and overrides `O`, `funcParams`
holds under the identity of the stage a table that maps every key of `O` to its
value in `O`, and every other key to what `D` maps it to (so a key of neither
map is absent from the table). -/
theorem C2_param_override_precedence (flow flow' : KisFlow PV Row) (newId : String)
    (fConf : KisFuncConfig PV) (O : FParam PV)
    (hlink : Link flow newId fConf O = some (flow', none)) :
    ∃ t, flow'.funcParams.lookup newId = some t ∧
      (∀ k v, O.lookup k = some v → t.lookup k = some v) ∧
      (∀ k, O.lookup k = none → t.lookup k = fConf.Params.lookup k) := by
  obtain ⟨_, _, hP⟩ := Link_ok hlink
  refine ⟨copyInto O (copyInto fConf.Params ∅), ?_, ?_, ?_⟩
  · rw [hP, AList.lookup_insert]
  · intro k v hk
    rw [copyInto_lookup, hk]
  · intro k hk
    rw [copyInto_lookup, hk]
    simp only
    rw [copyInto_lookup]
    cases fConf.Params.lookup k <;> simp

theorem xyFlow_linked : Link demoNew "func-1" xyStage yzOverrides = some (xyFlow, none) := rfl

/-- Instance of C2: defaults `{"x":1,"y":2}` with overrides `{"y":9,"z":3}`
resolve to exactly `{"x":1,"y":9,"z":3}`. -/
theorem C2_param_override_precedence_witness :
    Link demoNew "func-1" xyStage yzOverrides = some (xyFlow, none) ∧
    (∃ t, xyFlow.funcParams.lookup "func-1" = some t ∧
      (∀ k v, yzOverrides.lookup k = some v → t.lookup k = some v) ∧
      (∀ k, yzOverrides.lookup k = none → t.lookup k = xyStage.Params.lookup k)) ∧
    (∃ t, xyFlow.funcParams.lookup "func-1" = some t ∧
      t.lookup "x" = some 1 ∧ t.lookup "y" = some 9 ∧ t.lookup "z" = some 3 ∧
      ∀ k, k ≠ "x" → k ≠ "y" → k ≠ "z" → t.lookup k = none) := by
  have h := C2_param_override_precedence demoNew xyFlow "func-1" xyStage yzOverrides xyFlow_linked
  refine ⟨xyFlow_linked, h, ?_⟩
  obtain ⟨t, ht, hO, hD⟩ := h
  have hyz : ∀ k, k ≠ "y" → k ≠ "z" → yzOverrides.lookup k = none := by
    intro k hy hz
    unfold yzOverrides
    rw [AList.lookup_insert_ne hy, AList.lookup_insert_ne hz, AList.lookup_empty]
  refine ⟨t, ht, ?_, hO "y" 9 (by decide), hO "z" 3 (by decide), ?_⟩
  · rw [hD "x" (hyz "x" (by decide) (by decide))]
    decide
  · intro k hx hy hz
    rw [hD k (hyz k hy hz)]
    unfold xyStage xyDefaults
    simp only
    rw [AList.lookup_insert_ne hx, AList.lookup_insert_ne hy, AList.lookup_empty]

theorem Link_of_built {flow : KisFlow PV Row} {calls : List (LinkCall PV)} (hb : Built flow calls)
    (c : LinkCall PV) (hmode : c.fConf.FMode ≠ KisMode.unsupported) :
    ∃ flow', Link flow c.newId c.fConf c.fParams = some (flow', none) := by
  obtain ⟨o, hN⟩ := NewKisFunction_isSome c.newId hmode
  by_cases hz : calls.length = 0
  · have hh : flow.FlowHead = none := by rw [hb.head, if_pos hz]
    exact ⟨_, Link_first flow c.fParams hN hh⟩
  · have hh : flow.FlowHead = some 0 := by rw [hb.head, if_neg hz]
    have ht : flow.FlowTail = some (calls.length - 1) := by rw [hb.tail, if_neg hz]
    have hlt : calls.length - 1 < calls.length := by omega
    obtain ⟨ot, hot, _⟩ :=
      hb.node (calls.length - 1) calls[calls.length - 1] (List.getElem?_eq_getElem hlt)
    exact ⟨_, Link_next flow c.fParams hN hh ht hot⟩

theorem linkAll_append {cs : List (LinkCall PV)} {c : LinkCall PV} :
    ∀ {flow flow' : KisFlow PV Row}, linkAll flow (cs ++ [c]) = some flow' →
      ∃ mid, linkAll flow cs = some mid ∧ Link mid c.newId c.fConf c.fParams = some (flow', none) := by
  induction cs with
  | nil =>
    intro flow flow' h
    simp only [List.nil_append, linkAll] at h
    split at h
    · rename_i fl hl
      simp only [Option.some.injEq] at h
      subst h
      exact ⟨flow, rfl, hl⟩
    · simp at h
  | cons d ds ih =>
    intro flow flow' h
    simp only [List.cons_append, linkAll] at h
    split at h
    · rename_i fl hl
      obtain ⟨mid, hmid, hlast⟩ := ih h
      refine ⟨mid, ?_, hlast⟩
      simp only [linkAll, hl]
      exact hmid
    · simp at h

theorem Built_getId_lt {flow : KisFlow PV Row} {calls : List (LinkCall PV)} (hb : Built flow calls)
    {a : Addr} {k : String} (h : GetId flow a = some k) : a < calls.length := by
  unfold GetId at h
  cases hg : flow.heap[a]? with
  | none => simp [hg] at h
  | some x =>
    have := (List.getElem?_eq_some.mp hg).1
    rw [hb.len] at this
    exact this

theorem mem_calls_getElem? {calls : List (LinkCall PV)} {c : LinkCall PV} (h : c ∈ calls) :
    ∃ i : Nat, calls[i]? = some c := by
  obtain ⟨i, hi, hc⟩ := List.mem_iff_getElem.mp h
  exact ⟨i, by rw [List.getElem?_eq_getElem hi, hc]⟩

/-- C6, refuted as stated: a second stage with the identity of a stage already
linked is not rejected (`Link` returns nil), and afterwards two stages with
that identity, at the addresses 0 and 1, are reachable from `FlowHead`. -/
theorem C6_identity_uniqueness_counterexample :
    GetId dupFlow1 0 = some "func-1" ∧
    Link dupFlow1 "func-1" (demoStage "addOne" KisMode.V) yzOverrides = some (dupFlow2, none) ∧
    walkNext dupFlow2 2 dupFlow2.FlowHead = some [0, 1] ∧
    GetId dupFlow2 0 = some "func-1" ∧ GetId dupFlow2 1 = some "func-1" :=
  ⟨rfl, rfl, rfl, rfl, rfl⟩

/-- C6, amended. `appendFunc` does not compare identities. On a pipeline built
by successful `Link` calls, linking a further stage (of a supported mode) whose
identity equals that of a stage already linked is not rejected: `Link` returns
nil and appends the stage after the tail, so that the earlier stage (address
`i`) and the new one (address `calls.length`) are both reachable from
`FlowHead` with that identity, while `Funcs` and `funcParams` hold under it the
new stage and its resolved table. When the identities issued to the linked
stages are pairwise distinct, no two stages of the pipeline share an
identity. -/
theorem C6_identity_collision (flowId : String) (conf : KisFlowConfig)
    (calls : List (LinkCall PV)) (flow : KisFlow PV Row) (c ci : LinkCall PV) (i : Nat)
    (hlink : linkAll (NewKisFlow flowId conf) calls = some flow)
    (hmode : c.fConf.FMode ≠ KisMode.unsupported)
    (hi : calls[i]? = some ci) (hdup : ci.newId = c.newId) :
    ∃ flow', Link flow c.newId c.fConf c.fParams = some (flow', none) ∧
      walkNext flow' (calls.length + 1) flow'.FlowHead = some (List.range (calls.length + 1)) ∧
      i < calls.length ∧
      GetId flow' i = some c.newId ∧ GetId flow' calls.length = some c.newId ∧
      flow'.Funcs.lookup c.newId = some calls.length ∧
      flow'.funcParams.lookup c.newId = some (copyInto c.fParams (copyInto c.fConf.Params ∅)) ∧
      ((calls.map (fun c => c.newId)).Nodup →
        ∀ a b k, GetId flow a = some k → GetId flow b = some k → a = b) := by
  have hb : Built flow calls := Built_of_linkAll hlink
  obtain ⟨flow', hl⟩ := Link_of_built hb c hmode
  have hb' : Built flow' (calls ++ [c]) := Built_step hb hl
  obtain ⟨_, hF, hP⟩ := Link_ok hl
  have hil : i < calls.length := (List.getElem?_eq_some.mp hi).1
  refine ⟨flow', hl, ?_, hil, ?_, ?_, ?_, ?_, ?_⟩
  · have hle : (calls ++ [c]).length ≤ calls.length + 1 := by simp
    have := Built_walkNext hb' hle
    simpa using this
  · have h1 : (calls ++ [c])[i]? = some ci := by
      rw [List.getElem?_append_left hil]
      exact hi
    rw [(Built_info hb' h1).1, hdup]
  · have h1 : (calls ++ [c])[calls.length]? = some c := by simp
    exact (Built_info hb' h1).1
  · rw [hF, AList.lookup_insert, hb.len]
  · rw [hP, AList.lookup_insert]
  · intro hnd a b k ha hb2
    have hal : a < calls.length := Built_getId_lt hb ha
    have hbl : b < calls.length := Built_getId_lt hb hb2
    have h1 := (Built_info hb (List.getElem?_eq_getElem hal)).1
    have h2 := (Built_info hb (List.getElem?_eq_getElem hbl)).1
    rw [ha] at h1
    rw [hb2] at h2
    simp only [Option.some.injEq] at h1 h2
    have hal' : a < (calls.map (fun c => c.newId)).length := by simpa using hal
    have hbl' : b < (calls.map (fun c => c.newId)).length := by simpa using hbl
    have heq : (calls.map (fun c => c.newId))[a] = (calls.map (fun c => c.newId))[b] := by
      simp only [List.getElem_map]
      rw [← h1, ← h2]
    exact (List.Nodup.getElem_inj_iff hnd).mp heq

theorem dupFlow1_linked :
    linkAll (NewKisFlow "flow-1" demoConf) [⟨"func-1", demoStage "double" KisMode.V, ∅⟩] =
      some dupFlow1 := rfl

/-- Instance of the amended C6: the second call of `dupCalls` on `dupFlow1`. -/
theorem C6_identity_collision_witness :
    linkAll (NewKisFlow "flow-1" demoConf) [⟨"func-1", demoStage "double" KisMode.V, ∅⟩] =
      some dupFlow1 ∧
    (demoStage "addOne" KisMode.V).FMode ≠ KisMode.unsupported ∧
    ([⟨"func-1", demoStage "double" KisMode.V, ∅⟩] : List (LinkCall Int))[0]? =
      some ⟨"func-1", demoStage "double" KisMode.V, ∅⟩ ∧
    (∃ flow', Link dupFlow1 "func-1" (demoStage "addOne" KisMode.V) yzOverrides =
        some (flow', none) ∧
      walkNext flow' 2 flow'.FlowHead = some (List.range 2) ∧
      0 < 1 ∧
      GetId flow' 0 = some "func-1" ∧ GetId flow' 1 = some "func-1" ∧
      flow'.Funcs.lookup "func-1" = some 1 ∧
      flow'.funcParams.lookup "func-1" =
        some (copyInto yzOverrides (copyInto (demoStage "addOne" KisMode.V).Params ∅)) ∧
      ((([⟨"func-1", demoStage "double" KisMode.V, ∅⟩] : List (LinkCall Int)).map
          (fun c => c.newId)).Nodup →
        ∀ a b k, GetId dupFlow1 a = some k → GetId dupFlow1 b = some k → a = b)) :=
  ⟨dupFlow1_linked, by decide, rfl,
    C6_identity_collision "flow-1" demoConf [⟨"func-1", demoStage "double" KisMode.V, ∅⟩]
      dupFlow1 ⟨"func-1", demoStage "addOne" KisMode.V, yzOverrides⟩
      ⟨"func-1", demoStage "double" KisMode.V, ∅⟩ 0 dupFlow1_linked (by decide) rfl rfl⟩

/-- C7 (map coverage). After every sequence of successful `Link` calls on a new
pipeline, the stages reachable from `FlowHead` are those at the addresses below
`calls.length`; the identity of each of them is a key of `Funcs` and of
`funcParams`; every key of either map is the identity of a stage of the chain,
and `Funcs` maps it to a stage of the chain with that identity. The entries of
the stage linked last are in both maps as soon as its `Link` call returns:
`Funcs` holds the stage and `funcParams` its resolved table. -/
theorem C7_map_coverage (flowId : String) (conf : KisFlowConfig) (calls : List (LinkCall PV))
    (flow : KisFlow PV Row) (hlink : linkAll (NewKisFlow flowId conf) calls = some flow) :
    walkNext flow calls.length flow.FlowHead = some (List.range calls.length) ∧
    (∀ a ∈ List.range calls.length,
      ∃ k, GetId flow a = some k ∧ k ∈ flow.Funcs ∧ k ∈ flow.funcParams) ∧
    (∀ k, k ∈ flow.Funcs → ∃ a ∈ List.range calls.length, GetId flow a = some k) ∧
    (∀ k, k ∈ flow.funcParams → ∃ a ∈ List.range calls.length, GetId flow a = some k) ∧
    (∀ k a, flow.Funcs.lookup k = some a →
      a ∈ List.range calls.length ∧ GetId flow a = some k) ∧
    (∀ cs c, calls = cs ++ [c] →
      flow.Funcs.lookup c.newId = some cs.length ∧
      flow.funcParams.lookup c.newId =
        some (copyInto c.fParams (copyInto c.fConf.Params ∅))) := by
  have hb : Built flow calls := Built_of_linkAll hlink
  have hkey : ∀ k, (∃ c ∈ calls, c.newId = k) →
      ∃ a ∈ List.range calls.length, GetId flow a = some k := by
    rintro k ⟨c, hc, rfl⟩
    obtain ⟨i, hi⟩ := mem_calls_getElem? hc
    exact ⟨i, List.mem_range.mpr (List.getElem?_eq_some.mp hi).1, (Built_info hb hi).1⟩
  refine ⟨Built_walkNext hb (Nat.le_refl _), ?_, ?_, ?_, ?_, ?_⟩
  · intro a ha
    have hal : a < calls.length := List.mem_range.mp ha
    have hc : calls[a]? = some calls[a] := List.getElem?_eq_getElem hal
    refine ⟨calls[a].newId, (Built_info hb hc).1, ?_, ?_⟩
    · exact (hb.funcsKeys _).mpr ⟨calls[a], List.getElem_mem hal, rfl⟩
    · exact (hb.paramsKeys _).mpr ⟨calls[a], List.getElem_mem hal, rfl⟩
  · intro k hk
    exact hkey k ((hb.funcsKeys k).mp hk)
  · intro k hk
    exact hkey k ((hb.paramsKeys k).mp hk)
  · intro k a hka
    have hid := hb.funcsVal k a hka
    exact ⟨List.mem_range.mpr (Built_getId_lt hb hid), hid⟩
  · intro cs c hcs
    subst hcs
    obtain ⟨mid, hmid, hlast⟩ := linkAll_append hlink
    have hbm : Built mid cs := Built_of_linkAll hmid
    obtain ⟨_, hF, hP⟩ := Link_ok hlast
    constructor
    · rw [hF, AList.lookup_insert, hbm.len]
    · rw [hP, AList.lookup_insert]

/-- Instance of C7: the three stages of `demoFlow`. -/
theorem C7_map_coverage_witness :
    linkAll (NewKisFlow "flow-1" demoConf) demoCalls = some demoFlow ∧
    (walkNext demoFlow demoCalls.length demoFlow.FlowHead = some (List.range demoCalls.length) ∧
    (∀ a ∈ List.range demoCalls.length,
      ∃ k, GetId demoFlow a = some k ∧ k ∈ demoFlow.Funcs ∧ k ∈ demoFlow.funcParams) ∧
    (∀ k, k ∈ demoFlow.Funcs → ∃ a ∈ List.range demoCalls.length, GetId demoFlow a = some k) ∧
    (∀ k, k ∈ demoFlow.funcParams →
      ∃ a ∈ List.range demoCalls.length, GetId demoFlow a = some k) ∧
    (∀ k a, demoFlow.Funcs.lookup k = some a →
      a ∈ List.range demoCalls.length ∧ GetId demoFlow a = some k) ∧
    (∀ cs c, demoCalls = cs ++ [c] →
      demoFlow.Funcs.lookup c.newId = some cs.length ∧
      demoFlow.funcParams.lookup c.newId =
        some (copyInto c.fParams (copyInto c.fConf.Params ∅)))) :=
  ⟨demoFlow_linked, C7_map_coverage "flow-1" demoConf demoCalls demoFlow demoFlow_linked⟩

/-! ## Stage invocation -/

theorem KisFunctionV_Call_eq
    (cf : Ctx → String → KisFlow PV Row → KisFlow PV Row × Option KisError)
    (f : KisFunction PV) (ctx : Ctx) (flow : KisFlow PV Row) :
    KisFunctionV.Call cf f ctx flow = cf ctx f.Config.FName flow := by
  unfold KisFunctionV.Call
  split <;> rename_i h <;> exact h.symm

theorem KisFunctionL_Call_eq
    (cf : Ctx → String → KisFlow PV Row → KisFlow PV Row × Option KisError)
    (f : KisFunction PV) (ctx : Ctx) (flow : KisFlow PV Row) :
    KisFunctionL.Call cf f ctx flow = cf ctx f.Config.FName flow := by
  unfold KisFunctionL.Call
  split <;> rename_i h <;> exact h.symm

/-- C5 (disabled pipeline no-op). On a pipeline whose configuration status is
`FlowDisable`, `Run` returns nil whatever the state and the chain are, performs
no operation (no stage is invoked, no data is committed), and returns the
pipeline exactly as it was: staged data, current input, chain, `Funcs`,
`funcParams` and cursor. On a pipeline fresh from `NewKisFlow` the staged data
is therefore still empty. -/
theorem C5_disabled_noop (env : Env PV Row Ctx) (ctx : Ctx) (fuel : Nat) (flow : KisFlow PV Row)
    (hoff : flow.Conf.Status = env.FlowDisable) :
    Run env ctx fuel flow = some ⟨flow, none, []⟩ ∧
    ∀ flowId, ∃ out, Run env ctx fuel (NewKisFlow flowId flow.Conf : KisFlow PV Row) = some out ∧
      out.err = none ∧ out.trace = [] ∧ out.flow = NewKisFlow flowId flow.Conf ∧
      out.flow.data = ∅ := by
  constructor
  · simp [Run, hoff]
  · intro flowId
    refine ⟨⟨NewKisFlow flowId flow.Conf, none, []⟩, ?_, rfl, rfl, rfl, rfl⟩
    have : (NewKisFlow flowId flow.Conf : KisFlow PV Row).Conf.Status = env.FlowDisable := hoff
    simp [Run, this]

/-- Instance of C5: a disabled pipeline with three stages and rows in its
buffer, run without any fuel. -/
theorem C5_disabled_noop_witness :
    offInput.Conf.Status = (demoEnv none).FlowDisable ∧
    (Run (demoEnv none) () 0 offInput = some ⟨offInput, none, []⟩ ∧
    ∀ flowId, ∃ out,
      Run (demoEnv none) () 0 (NewKisFlow flowId offInput.Conf : KisFlow Int Int) = some out ∧
      out.err = none ∧ out.trace = [] ∧ out.flow = NewKisFlow flowId offInput.Conf ∧
      out.flow.data = ∅) :=
  ⟨by decide, C5_disabled_noop (demoEnv none) () 0 offInput (by decide)⟩

/-- C10 (generic stage dispatch). For every stage, context and pipeline, and
whatever the registry's `CallFunction` does, `KisFunctionV.Call` and
`KisFunctionL.Call` have exactly the effect and the result of one call of
`CallFunction` with the stage's `Config.FName` and the given pipeline: nil when
it returns nil, the same error when it returns an error; the two variants agree
on identical inputs. -/
theorem C10_generic_dispatch
    (callFunction : Ctx → String → KisFlow PV Row → KisFlow PV Row × Option KisError)
    (f : KisFunction PV) (ctx : Ctx) (flow : KisFlow PV Row) :
    KisFunctionV.Call callFunction f ctx flow = callFunction ctx f.Config.FName flow ∧
    KisFunctionL.Call callFunction f ctx flow = callFunction ctx f.Config.FName flow ∧
    ((callFunction ctx f.Config.FName flow).2 = none →
      (KisFunctionV.Call callFunction f ctx flow).2 = none ∧
      (KisFunctionL.Call callFunction f ctx flow).2 = none) ∧
    (∀ e, (callFunction ctx f.Config.FName flow).2 = some e →
      (KisFunctionV.Call callFunction f ctx flow).2 = some e ∧
      (KisFunctionL.Call callFunction f ctx flow).2 = some e) ∧
    KisFunctionV.Call callFunction f ctx flow = KisFunctionL.Call callFunction f ctx flow := by
  have hV := KisFunctionV_Call_eq callFunction f ctx flow
  have hL := KisFunctionL_Call_eq callFunction f ctx flow
  refine ⟨hV, hL, ?_, ?_, hV.trans hL.symm⟩
  · intro h
    rw [hV, hL]
    exact ⟨h, h⟩
  · intro e h
    rw [hV, hL]
    exact ⟨h, h⟩

/-- Instance of C10: the first stage of `demoInput` (logical name `double`)
dispatched through the registry `demoRouter`, as a `KisFunctionV` and as a
`KisFunctionL`. -/
theorem C10_generic_dispatch_witness :
    KisFunctionV.Call (CallFunction demoRouter) ⟨Variant.V, "func-1", demoStage "double" KisMode.V, none, none⟩
        () demoInput =
      CallFunction demoRouter () "double" demoInput ∧
    KisFunctionL.Call (CallFunction demoRouter) ⟨Variant.V, "func-1", demoStage "double" KisMode.V, none, none⟩
        () demoInput =
      CallFunction demoRouter () "double" demoInput :=
  ⟨(C10_generic_dispatch (CallFunction demoRouter)
      ⟨Variant.V, "func-1", demoStage "double" KisMode.V, none, none⟩ () demoInput).1,
   (C10_generic_dispatch (CallFunction demoRouter)
      ⟨Variant.V, "func-1", demoStage "double" KisMode.V, none, none⟩ () demoInput).2.1⟩

theorem SetN_of_lt (flow : KisFlow PV Row) {f : Addr} (v : Option Addr)
    (h : f < flow.heap.length) :
    ∃ flow', SetN flow f v = some flow' ∧ flow'.heap.length = flow.heap.length ∧
      flow'.FlowHead = flow.FlowHead ∧ flow'.FlowTail = flow.FlowTail := by
  unfold SetN
  rw [List.getElem?_eq_getElem h]
  exact ⟨_, rfl, by simp, rfl, rfl⟩

theorem SetP_of_lt (flow : KisFlow PV Row) {f : Addr} (v : Option Addr)
    (h : f < flow.heap.length) :
    ∃ flow', SetP flow f v = some flow' ∧ flow'.heap.length = flow.heap.length ∧
      flow'.FlowHead = flow.FlowHead ∧ flow'.FlowTail = flow.FlowTail := by
  unfold SetP
  rw [List.getElem?_eq_getElem h]
  exact ⟨_, rfl, by simp, rfl, rfl⟩

theorem GetId_of_lt (flow : KisFlow PV Row) {f : Addr} (h : f < flow.heap.length) :
    ∃ fid, GetId flow f = some fid := by
  unfold GetId
  rw [List.getElem?_eq_getElem h]
  exact ⟨_, rfl⟩

theorem GetConfig_of_lt (flow : KisFlow PV Row) {f : Addr} (h : f < flow.heap.length) :
    ∃ conf, GetConfig flow f = some conf := by
  unfold GetConfig
  rw [List.getElem?_eq_getElem h]
  exact ⟨_, rfl⟩

/-- Appending an allocated stage to a pipeline whose tail reference is valid
does not panic and returns nil. -/
theorem appendFunc_succeeds (flow : KisFlow PV Row) (fn : Addr) (fParam : FParam PV)
    (hfn : fn < flow.heap.length)
    (htail : flow.FlowHead = none ∨ ∃ t, flow.FlowTail = some t ∧ t < flow.heap.length) :
    ∃ flow', appendFunc flow (some fn) fParam = some (flow', none) := by
  have hfinish : ∀ flow2 : KisFlow PV Row, flow2.heap.length = flow.heap.length →
      ∃ flow', (do
        let fid ← GetId flow2 fn
        let flow3 := { flow2 with Funcs := flow2.Funcs.insert fid fn }
        let conf ← GetConfig flow3 fn
        let params : FParam PV := ∅
        let params := copyInto conf.Params params
        let params := copyInto fParam params
        pure ({ flow3 with funcParams := flow3.funcParams.insert fid params }, none) :
          Option (KisFlow PV Row × Option KisError)) = some (flow', none) := by
    intro flow2 hlen
    obtain ⟨fid, hfid⟩ := GetId_of_lt flow2 (hlen ▸ hfn)
    obtain ⟨conf, hconf⟩ := GetConfig_of_lt flow2 (hlen ▸ hfn)
    have hconf' : GetConfig { flow2 with Funcs := flow2.Funcs.insert fid fn } fn = some conf :=
      hconf
    simp only [hfid, hconf', bind, Option.bind, pure]
    exact ⟨_, rfl⟩
  unfold appendFunc
  simp only
  cases hh : flow.FlowHead with
  | none =>
    simp only
    have h0 : fn < ({ flow with FlowHead := some fn, FlowTail := some fn } :
        KisFlow PV Row).heap.length := hfn
    obtain ⟨f1, h1, hl1, _, _⟩ := SetN_of_lt _ none h0
    obtain ⟨f2, h2, hl2, _, _⟩ := SetP_of_lt f1 none (hl1 ▸ h0)
    obtain ⟨flow', hfin⟩ := hfinish f2 (hl2.trans hl1)
    refine ⟨flow', ?_⟩
    simp only [bind, Option.bind, h1, h2] at hfin ⊢
    exact hfin
  | some hd =>
    simp only
    rcases htail with hnone | ⟨t, ht, htl⟩
    · rw [hh] at hnone
      simp at hnone
    · obtain ⟨f1, h1, hl1, _, ht1⟩ := SetP_of_lt flow flow.FlowTail hfn
      obtain ⟨f2, h2, hl2, _, ht2⟩ := SetN_of_lt f1 none (hl1 ▸ hfn)
      have htail2 : f2.FlowTail = some t := by rw [ht2, ht1, ht]
      obtain ⟨f3, h3, hl3, _, _⟩ := SetN_of_lt f2 (some fn) (show t < f2.heap.length by
        rw [hl2, hl1]; exact htl)
      obtain ⟨flow', hfin⟩ := hfinish { f3 with FlowTail := some fn }
        (hl3.trans (hl2.trans hl1))
      refine ⟨flow', ?_⟩
      simp only [bind, Option.bind, h1, h2, htail2, h3, pure] at hfin ⊢
      exact hfin

/-- Appending a stage that is not absent never returns an error. -/
theorem appendFunc_no_error {flow : KisFlow PV Row} {fn : Addr} {fParam : FParam PV}
    {r : KisFlow PV Row × Option KisError} (h : appendFunc flow (some fn) fParam = some r) :
    r.2 = none := by
  simp only [appendFunc, bind, Option.bind_eq_some, pure] at h
  obtain ⟨_, _, _, _, _, _, hfin⟩ := h
  simp only [Option.some.injEq] at hfin
  rw [← hfin]

/-- A successful `appendFunc` changes the identity and the configuration of no
stage object. -/
theorem appendFunc_info {flow flow' : KisFlow PV Row} {fn : Addr} {fParam : FParam PV}
    (h : appendFunc flow (some fn) fParam = some (flow', none)) :
    ∀ b, GetId flow' b = GetId flow b ∧ GetConfig flow' b = GetConfig flow b := by
  simp only [appendFunc, bind, Option.bind_eq_some, pure] at h
  obtain ⟨flow2, hbr, fid, _, conf, _, hfin⟩ := h
  have hsame : SameInfo flow flow2 := by
    split at hbr
    · simp only [Option.bind_eq_some] at hbr
      obtain ⟨fl1, h1, h2⟩ := hbr
      have s0 : SameInfo flow { flow with FlowHead := some fn, FlowTail := some fn } :=
        ⟨rfl, rfl, fun _ => ⟨rfl, rfl⟩⟩
      exact (s0.trans (SetN_sameInfo h1)).trans (SetP_sameInfo h2)
    · simp only [Option.bind_eq_some] at hbr
      obtain ⟨fl1, h1, fl2, h2, tl, _, fl3, h3, h4⟩ := hbr
      have s4 : SameInfo fl3 flow2 := by
        simp at h4
        subst h4
        exact ⟨rfl, rfl, fun _ => ⟨rfl, rfl⟩⟩
      exact (((SetP_sameInfo h1).trans (SetN_sameInfo h2)).trans (SetN_sameInfo h3)).trans s4
  intro b
  simp only [Option.some.injEq, Prod.mk.injEq, and_true] at hfin
  subst hfin
  exact hsame.2.2 b

/-- A pipeline built by successful `Link` calls has an empty chain or a valid
tail reference. -/
theorem Built_tail_valid {flow : KisFlow PV Row} {calls : List (LinkCall PV)}
    (hb : Built flow calls) :
    flow.FlowHead = none ∨ ∃ t, flow.FlowTail = some t ∧ t < flow.heap.length := by
  by_cases hz : calls.length = 0
  · exact Or.inl (by rw [hb.head, if_pos hz])
  · have hlt : calls.length - 1 < calls.length := by omega
    exact Or.inr ⟨calls.length - 1, by rw [hb.tail, if_neg hz], hb.len ▸ hlt⟩

/-- C11 (link of an absent stage fails atomically). On every pipeline, a new one
included: appending an absent stage returns the error "AppendFunc append nil to
List" and the pipeline unchanged (`FlowHead`, `FlowTail`, every stage link,
`Funcs` and `funcParams`), and `Link` returns this error and the pipeline
unchanged when the stage factory returns no stage. Conversely, appending a stage
that is not absent never returns an error; it returns nil whenever the chain is
empty or the tail reference is valid, and so does `Link` for every configuration
of a supported mode; both hold in particular on a new pipeline and on every
pipeline built by successful `Link` calls. -/
theorem C11_append_nil_atomic (flow : KisFlow PV Row) (fParam : FParam PV) :
    appendFunc flow none fParam =
      some (flow, some (KisError.msg "AppendFunc append nil to List")) ∧
    (∀ newId (fConf : KisFuncConfig PV), NewKisFunction newId fConf = none →
      Link flow newId fConf fParam =
        some (flow, some (KisError.msg "AppendFunc append nil to List"))) ∧
    (∀ (fn : Addr) (r : KisFlow PV Row × Option KisError),
      appendFunc flow (some fn) fParam = some r → r.2 = none) ∧
    (∀ fn, fn < flow.heap.length →
      (flow.FlowHead = none ∨ ∃ t, flow.FlowTail = some t ∧ t < flow.heap.length) →
      ∃ flow', appendFunc flow (some fn) fParam = some (flow', none)) ∧
    (∀ newId (fConf : KisFuncConfig PV), fConf.FMode ≠ KisMode.unsupported →
      (flow.FlowHead = none ∨ ∃ t, flow.FlowTail = some t ∧ t < flow.heap.length) →
      ∃ flow', Link flow newId fConf fParam = some (flow', none)) ∧
    (∀ flowId conf newId (fConf : KisFuncConfig PV), fConf.FMode ≠ KisMode.unsupported →
      ∃ flow', Link (NewKisFlow flowId conf : KisFlow PV Row) newId fConf fParam =
        some (flow', none)) ∧
    (∀ flowId conf (calls : List (LinkCall PV)),
      linkAll (NewKisFlow flowId conf) calls = some flow →
      (∀ newId (fConf : KisFuncConfig PV), fConf.FMode ≠ KisMode.unsupported →
        ∃ flow', Link flow newId fConf fParam = some (flow', none)) ∧
      (∀ fn, fn < flow.heap.length →
        ∃ flow', appendFunc flow (some fn) fParam = some (flow', none))) := by
  have hlink : ∀ (fl : KisFlow PV Row) newId (fConf : KisFuncConfig PV),
      fConf.FMode ≠ KisMode.unsupported →
      (fl.FlowHead = none ∨ ∃ t, fl.FlowTail = some t ∧ t < fl.heap.length) →
      ∃ flow', Link fl newId fConf fParam = some (flow', none) := by
    intro fl newId fConf hmode htail
    obtain ⟨o, hN⟩ := NewKisFunction_isSome newId hmode
    simp only [Link, hN, alloc]
    apply appendFunc_succeeds
    · simp
    · rcases htail with hnone | ⟨t, ht, htl⟩
      · exact Or.inl hnone
      · refine Or.inr ⟨t, ht, ?_⟩
        show t < (fl.heap ++ [o]).length
        rw [List.length_append]
        exact Nat.lt_add_right 1 htl
  refine ⟨rfl, ?_, fun _ _ h => appendFunc_no_error h,
    fun fn hfn htail => appendFunc_succeeds flow fn fParam hfn htail,
    fun newId fConf hmode htail => hlink flow newId fConf hmode htail, ?_, ?_⟩
  · intro newId fConf hnone
    simp only [Link, hnone]
    rfl
  · intro flowId conf newId fConf hmode
    exact hlink _ newId fConf hmode (Or.inl rfl)
  · intro flowId conf calls hbuilt
    have htail := Built_tail_valid (Built_of_linkAll hbuilt)
    exact ⟨fun newId fConf hmode => hlink flow newId fConf hmode htail,
      fun fn hfn => appendFunc_succeeds flow fn fParam hfn htail⟩

/-- Instance of C11: on the new pipeline `demoNew` the absent stage is refused,
a `Link` without stage fails and leaves the pipeline as it is, and the first
`Link` of a stage succeeds; on `demoAlloc` (three linked stages, the tail at
address 2) the absent stage is refused and the stage at address 3 is
appended; on `demoFlow`, built by three `Link` calls, a fourth `Link` succeeds. -/
theorem C11_append_nil_atomic_witness :
    appendFunc demoNew none ∅ =
      some (demoNew, some (KisError.msg "AppendFunc append nil to List")) ∧
    Link demoNew "func-1" (demoStage "double" KisMode.unsupported) ∅ =
      some (demoNew, some (KisError.msg "AppendFunc append nil to List")) ∧
    (∃ flow', Link demoNew "func-1" (demoStage "double" KisMode.V) ∅ = some (flow', none)) ∧
    appendFunc demoAlloc none ∅ =
      some (demoAlloc, some (KisError.msg "AppendFunc append nil to List")) ∧
    (∃ flow', appendFunc demoAlloc (some 3) ∅ = some (flow', none)) ∧
    (∃ flow', Link demoFlow "func-4" (demoStage "double" KisMode.L) ∅ = some (flow', none)) :=
  ⟨(C11_append_nil_atomic demoNew ∅).1,
   (C11_append_nil_atomic demoNew ∅).2.1 "func-1" (demoStage "double" KisMode.unsupported) rfl,
   (C11_append_nil_atomic demoNew ∅).2.2.2.2.1 "func-1" (demoStage "double" KisMode.V)
     (by decide) (Or.inl rfl),
   (C11_append_nil_atomic demoAlloc ∅).1,
   (C11_append_nil_atomic demoAlloc ∅).2.2.2.1 3 (by decide) (Or.inr ⟨2, rfl, by decide⟩),
   ((C11_append_nil_atomic demoFlow ∅).2.2.2.2.2.2 "flow-1" demoConf demoCalls
     demoFlow_linked).1 "func-4" (demoStage "double" KisMode.L) (by decide)⟩

/-- C12 (creation postcondition). For every configuration `conf`,
`NewKisFlow(conf)` is a pipeline whose `GetName()` is `conf.FlowName`, whose
configuration is `conf`, whose chain is empty (`FlowHead` and `FlowTail` absent,
no stage object, the walk from `FlowHead` visits nothing), whose `Funcs`,
`funcParams` and staged-data maps are empty, whose buffer and current input are
empty, and whose cursor is unset (`ThisFunction` absent, `ThisFunctionId` and
`PrevFunctionId` empty); its instance identity is the one the supplier issued. -/
theorem C12_creation_postcondition (flowId : String) (conf : KisFlowConfig) :
    GetName (NewKisFlow flowId conf : KisFlow PV Row) = conf.FlowName ∧
    (NewKisFlow flowId conf : KisFlow PV Row).Conf = conf ∧
    (NewKisFlow flowId conf : KisFlow PV Row).Id = flowId ∧
    (NewKisFlow flowId conf : KisFlow PV Row).FlowHead = none ∧
    (NewKisFlow flowId conf : KisFlow PV Row).FlowTail = none ∧
    (NewKisFlow flowId conf : KisFlow PV Row).heap = [] ∧
    (∀ fuel, walkNext (NewKisFlow flowId conf : KisFlow PV Row) fuel
      (NewKisFlow flowId conf : KisFlow PV Row).FlowHead = some []) ∧
    (NewKisFlow flowId conf : KisFlow PV Row).Funcs = ∅ ∧
    (NewKisFlow flowId conf : KisFlow PV Row).funcParams = ∅ ∧
    (NewKisFlow flowId conf : KisFlow PV Row).data = ∅ ∧
    (NewKisFlow flowId conf : KisFlow PV Row).buffer = [] ∧
    (NewKisFlow flowId conf : KisFlow PV Row).inPut = [] ∧
    GetThisFunction (NewKisFlow flowId conf : KisFlow PV Row) = none ∧
    (NewKisFlow flowId conf : KisFlow PV Row).ThisFunctionId = "" ∧
    (NewKisFlow flowId conf : KisFlow PV Row).PrevFunctionId = "" := by
  refine ⟨rfl, rfl, rfl, rfl, rfl, rfl, ?_, rfl, rfl, rfl, rfl, rfl, rfl, rfl, rfl⟩
  intro fuel
  cases fuel <;> rfl

theorem set_of_getElem? {α : Type} (l : List α) (p : Nat) (t : α) (h : l[p]? = some t) :
    l.set p t = l := by
  apply List.ext_getElem?
  intro i
  by_cases hi : p = i
  · subst hi
    rw [List.getElem?_set_self (List.getElem?_eq_some.mp h).1, h]
  · rw [List.getElem?_set_ne hi]

theorem foldlM_mapAssign (l : List (Sigma (fun _ : String => PV))) :
    ∀ (store : MapStore PV) (p : Nat) (t : FParam PV), store[p]? = some t →
      l.foldlM (fun st kv => mapAssign st p kv.1 kv.2) store =
        some (store.set p (l.foldl (fun acc kv => acc.insert kv.1 kv.2) t)) := by
  induction l with
  | nil =>
    intro store p t h
    simp only [List.foldlM_nil, List.foldl_nil, pure]
    rw [set_of_getElem? store p t h]
  | cons x xs ih =>
    intro store p t h
    have hp : p < store.length := (List.getElem?_eq_some.mp h).1
    have h1 : mapAssign store p x.1 x.2 = some (store.set p (t.insert x.1 x.2)) := by
      simp [mapAssign, h]
    have h2 : (store.set p (t.insert x.1 x.2))[p]? = some (t.insert x.1 x.2) :=
      List.getElem?_set_self hp
    simp only [List.foldlM_cons, List.foldl_cons, h1, bind, Option.bind]
    rw [ih _ p _ h2, List.set_set]

theorem copyInto_empty (t : FParam PV) : copyInto (∅ : FParam PV) t = t := rfl

theorem rangeAssign_spec (store : MapStore PV) (src : Option Nat) (p : Nat) (t : FParam PV)
    (hp : store[p]? = some t) (hsrc : ∀ a, src = some a → a < store.length) :
    rangeAssign store src p = some (store.set p (copyInto (derefMap store src) t)) := by
  cases src with
  | none =>
    simp only [rangeAssign, derefMap, copyInto_empty]
    rw [set_of_getElem? store p t hp]
  | some s =>
    have hs : s < store.length := hsrc s rfl
    simp only [rangeAssign, derefMap, List.getElem?_eq_getElem hs, Option.getD_some]
    exact foldlM_mapAssign _ store p t hp

/-- Parameter resolution on map objects: it appends one new map object, whose
content is the table of the content-level definition, and changes no other. -/
theorem resolveParams_spec (store : MapStore PV) (d o : Option Nat)
    (hd : ∀ a, d = some a → a < store.length) (ho : ∀ a, o = some a → a < store.length) :
    resolveParams store d o =
      some (store ++ [copyInto (derefMap store o) (copyInto (derefMap store d) ∅)],
        store.length) := by
  have hderef : ∀ (r : Option Nat) (x : FParam PV), (∀ a, r = some a → a < store.length) →
      derefMap (store ++ [x]) r = derefMap store r := by
    intro r x hr
    cases r with
    | none => rfl
    | some a => simp [derefMap, List.getElem?_append_left (hr a rfl)]
  have hlen : ∀ (r : Option Nat) (x : FParam PV), (∀ a, r = some a → a < store.length) →
      ∀ a, r = some a → a < (store ++ [x]).length := by
    intro r x hr a ha
    rw [List.length_append]
    exact Nat.lt_add_right 1 (hr a ha)
  have h1 := rangeAssign_spec (store ++ [∅]) d store.length ∅
    (List.getElem?_concat_length store ∅) (hlen d ∅ hd)
  rw [hderef d ∅ hd, List.set_append_right _ _ (Nat.le_refl _)] at h1
  simp only [Nat.sub_self, List.set_cons_zero] at h1
  have h2 := rangeAssign_spec (store ++ [copyInto (derefMap store d) ∅]) o store.length _
    (List.getElem?_concat_length store _) (hlen o _ ho)
  rw [hderef o _ ho, List.set_append_right _ _ (Nat.le_refl _)] at h2
  simp only [Nat.sub_self, List.set_cons_zero] at h2
  simp only [resolveParams, h1, h2]

/-- C14 (resolved parameter tables are immutable after link). A successful
`Link` call, whose stage is issued an identity that no stage of the pipeline
has (the identifier supplier issues every identity once), leaves every stage
linked before as it was: its identity, its configuration with the default
parameter map, the `funcParams` table and the `Funcs` entry kept under its
identity. The new stage holds the configuration it was given, unchanged. On map
objects, the resolution of the parameters allocates one new map for the table
and writes to it alone: every map object that existed before the call, the
default parameter map of the stage configuration and the override map of the
caller among them, has the content it had, and the new object holds the table
that `funcParams` keeps for the new stage. -/
theorem C14_tables_immutable (flow flow' : KisFlow PV Row) (newId : String)
    (fConf : KisFuncConfig PV) (fParams : FParam PV)
    (hlink : Link flow newId fConf fParams = some (flow', none))
    (hfresh : ∀ b, b < flow.heap.length → GetId flow b ≠ some newId) :
    (∀ b k, GetId flow b = some k →
      GetId flow' b = some k ∧ GetConfig flow' b = GetConfig flow b ∧
      flow'.funcParams.lookup k = flow.funcParams.lookup k ∧
      flow'.Funcs.lookup k = flow.Funcs.lookup k) ∧
    GetConfig flow' flow.heap.length = some fConf ∧
    (∀ (store : MapStore PV) (d o : Option Nat),
      (∀ a, d = some a → a < store.length) → (∀ a, o = some a → a < store.length) →
      derefMap store d = fConf.Params → derefMap store o = fParams →
      ∃ store', resolveParams store d o = some (store', store.length) ∧
        (∀ a, a < store.length → store'[a]? = store[a]?) ∧
        derefMap store' d = fConf.Params ∧ derefMap store' o = fParams ∧
        store'[store.length]? = flow'.funcParams.lookup newId) := by
  obtain ⟨⟨obj, hN⟩, hF, hP⟩ := Link_ok hlink
  obtain ⟨_, hconf, _, _⟩ := NewKisFunction_some hN
  have happ : appendFunc (alloc flow obj).1 (some flow.heap.length) fParams =
      some (flow', none) := by
    simp only [Link, hN] at hlink
    exact hlink
  have hinfo := appendFunc_info happ
  have hold : ∀ b, b < flow.heap.length →
      GetId flow' b = GetId flow b ∧ GetConfig flow' b = GetConfig flow b := by
    intro b hb
    obtain ⟨h1, h2⟩ := hinfo b
    rw [h1, h2]
    simp [GetId, GetConfig, alloc, List.getElem?_append_left hb]
  refine ⟨?_, ?_, ?_⟩
  · intro b k hbk
    have hb : b < flow.heap.length := by
      unfold GetId at hbk
      cases hg : flow.heap[b]? with
      | none => simp [hg] at hbk
      | some x => exact (List.getElem?_eq_some.mp hg).1
    have hk : k ≠ newId := by
      intro h
      exact hfresh b hb (h ▸ hbk)
    obtain ⟨h1, h2⟩ := hold b hb
    refine ⟨h1.trans hbk, h2, ?_, ?_⟩
    · rw [hP, AList.lookup_insert_ne hk]
    · rw [hF, AList.lookup_insert_ne hk]
  · rw [(hinfo flow.heap.length).2]
    simp [GetConfig, alloc, hconf]
  · intro store d o hd ho hdv hov
    have hspec := resolveParams_spec store d o hd ho
    rw [hdv, hov] at hspec
    have hkeep : ∀ a, a < store.length →
        (store ++ [copyInto fParams (copyInto fConf.Params ∅)])[a]? = store[a]? :=
      fun a ha => List.getElem?_append_left ha
    have hderef : ∀ r : Option Nat, (∀ a, r = some a → a < store.length) →
        derefMap (store ++ [copyInto fParams (copyInto fConf.Params ∅)]) r =
          derefMap store r := by
      intro r hr
      cases r with
      | none => rfl
      | some a => simp [derefMap, hkeep a (hr a rfl)]
    refine ⟨_, hspec, hkeep, (hderef d hd).trans hdv, (hderef o ho).trans hov, ?_⟩
    rw [hP, AList.lookup_insert, List.getElem?_concat_length]

theorem demoFlow2_link :
    Link demoFlow2 "func-3" (demoStage "addOne" KisMode.V) yzOverrides =
      some (((Link demoFlow2 "func-3" (demoStage "addOne" KisMode.V) yzOverrides).map
        Prod.fst).getD demoFlow2, none) := rfl

/-- Instance of C14: a third `Link` call on the pipeline of the first two calls
of `demoCalls`, with the identity `func-3` that neither stage has. -/
theorem C14_tables_immutable_witness :
    Link demoFlow2 "func-3" (demoStage "addOne" KisMode.V) yzOverrides =
      some (((Link demoFlow2 "func-3" (demoStage "addOne" KisMode.V) yzOverrides).map
        Prod.fst).getD demoFlow2, none) ∧
    (∀ b, b < demoFlow2.heap.length → GetId demoFlow2 b ≠ some "func-3") ∧
    GetId demoFlow2 0 = some "func-1" ∧
    (demoFlow2.funcParams.lookup "func-1").isSome = true ∧
    demoFlow2.Funcs.lookup "func-1" = some 0 ∧
    (((Link demoFlow2 "func-3" (demoStage "addOne" KisMode.V) yzOverrides).map
        Prod.fst).getD demoFlow2).funcParams.lookup "func-1" =
      demoFlow2.funcParams.lookup "func-1" ∧
    (((Link demoFlow2 "func-3" (demoStage "addOne" KisMode.V) yzOverrides).map
        Prod.fst).getD demoFlow2).Funcs.lookup "func-1" =
      demoFlow2.Funcs.lookup "func-1" ∧
    (resolveParams xyStore (some 0) (some 1)).map
        (fun r => (r.1.map (fun t => t.entries.map (fun e => (e.1, e.2))), r.2)) =
      some ([[("x", 1), ("y", 2)], [("y", 9), ("z", 3)], [("z", 3), ("y", 9), ("x", 1)]], 2) := by
  have h := C14_tables_immutable demoFlow2 _ "func-3" (demoStage "addOne" KisMode.V)
    yzOverrides demoFlow2_link (by decide)
  have h0 := h.1 0 "func-1" rfl
  exact ⟨demoFlow2_link, by decide, rfl, by decide, by decide, h0.2.2.1, h0.2.2.2, by decide⟩

/-! ## The execution cursor during a run -/

/-- C13 (predecessor cursor), evaluated on a first and on a second run of the
same pipeline (stage A at address 0, stage B at address 1). In the first run
`PrevFunctionId` is the virtual first identity when the input of the head stage
is derived and when the head stage is invoked, and the identity of A at stage B.
The first run leaves `ThisFunctionId` on B. In the second run the cursor update of
the loop body finds `ThisFunctionId` not empty and overwrites the virtual first
identity that `Run` has just set: the head stage has its input derived and is
invoked with `PrevFunctionId` equal to the identity of B. With the collaborators
of the instance, stage A then consumes the rows B produced in the first run
(3, 5, 7) instead of the new source rows (10, 20). -/
theorem C13_later_run_prev_cursor :
    (demoEnv none).FunctionIdFirstVirtual = "FunctionIdFirstVirtual" ∧
    (Run (demoEnv none) () 2 okInput).map Outcome.cursors =
      some [(Op.commitSrcData, "FunctionIdFirstVirtual", "", none),
        (Op.getCurData 0, "FunctionIdFirstVirtual", "func-A", some 0),
        (Op.Call 0, "FunctionIdFirstVirtual", "func-A", some 0),
        (Op.commitCurData 0, "FunctionIdFirstVirtual", "func-A", some 0),
        (Op.getCurData 1, "func-A", "func-B", some 1),
        (Op.Call 1, "func-A", "func-B", some 1),
        (Op.commitCurData 1, "func-A", "func-B", some 1)] ∧
    (Run (demoEnv none) () 2 okInput).map (fun out => (out.err, out.flow.ThisFunctionId)) =
      some (none, "func-B") ∧
    (Run (demoEnv none) () 2 secondInput).map Outcome.cursors =
      some [(Op.commitSrcData, "FunctionIdFirstVirtual", "func-B", some 1),
        (Op.getCurData 0, "func-B", "func-A", some 0),
        (Op.Call 0, "func-B", "func-A", some 0),
        (Op.commitCurData 0, "func-B", "func-A", some 0),
        (Op.getCurData 1, "func-A", "func-B", some 1),
        (Op.Call 1, "func-A", "func-B", some 1),
        (Op.commitCurData 1, "func-A", "func-B", some 1)] ∧
    (Run (demoEnv none) () 2 secondInput).map Outcome.summary =
      some (none,
        [some [10, 20], none, none, none, some [6, 10, 14], some [7, 11, 15], none],
        [(Op.commitSrcData, none), (Op.getCurData 0, none), (Op.Call 0, none),
         (Op.commitCurData 0, none), (Op.getCurData 1, none), (Op.Call 1, none),
         (Op.commitCurData 1, none)]) :=
  ⟨rfl, by decide, by decide, by decide, by decide⟩

end Kis
